import Mathlib

/-!
# MOD2 firmware: voice control and envelope pipeline

A shallow embedding of the control-rate code of the MOD2 firmware
(`Firmware/braids/braids.h`, `Firmware/tides/tides.h`,
`Firmware/tides/potentiometer.h`) and theorems about it.

Conventions of the embedding:

* `float` values are rationals and float arithmetic is exact arithmetic;
  where the rounding of single precision decides a property (the number of
  blocks the release of the envelope takes), the envelope is also given in
  `float` arithmetic (`roundF32`, `nextEnvelopeF32`);
* C integers are `Nat`/`Int`, with an explicit `% 2^w` where a conversion
  to a narrower unsigned type happens;
* globals and function-local `static` variables are fields of an explicit
  state record that each update function takes and returns;
* the external engines (`braids::MacroOscillator`,
  `tides::PolySlopeGenerator`) and `analogRead` are not modelled: what they
  write or return in a call is an arbitrary argument of the update
  function.
-/

/-- C conversion of a `float` to `int16_t`: the fractional part is
discarded (truncation toward zero). The conversion is only defined in C for
values whose truncation fits in 16 bits; the truncated integer is returned
as it is. -/
def castInt16 (x : ℚ) : Int := if 0 ≤ x then ⌊x⌋ else ⌈x⌉

namespace Braids

/-- `BLOCK_SIZE` of braids.h. -/
def BLOCK_SIZE : Nat := 32

/-- The enumerators of `braids::MacroOscillatorShape` that
`updateBraidsAudio` names. The enumeration is declared in the Braids
library, outside the firmware sources, so its values are a parameter. -/
structure ShapeTable where
  MACRO_OSC_SHAPE_PLUCKED : Nat
  MACRO_OSC_SHAPE_BOWED : Nat
  MACRO_OSC_SHAPE_BLOWN : Nat
  MACRO_OSC_SHAPE_FLUTED : Nat
  MACRO_OSC_SHAPE_STRUCK_BELL : Nat
  MACRO_OSC_SHAPE_STRUCK_DRUM : Nat
  MACRO_OSC_SHAPE_KICK : Nat
  MACRO_OSC_SHAPE_SNARE : Nat
  MACRO_OSC_SHAPE_CYMBAL : Nat
  MACRO_OSC_SHAPE_PARTICLE_NOISE : Nat
  MACRO_OSC_SHAPE_DIGITAL_MODULATION : Nat
  MACRO_OSC_SHAPE_VOWEL : Nat
  MACRO_OSC_SHAPE_VOWEL_FOF : Nat
  MACRO_OSC_SHAPE_LAST : Nat
deriving DecidableEq, Repr

/-- The enumeration order of the Mutable Instruments Braids library
(`MACRO_OSC_SHAPE_CSAW = 0`, ..., `MACRO_OSC_SHAPE_LAST = 48`), used where
a concrete table is needed. -/
def braidsShapes : ShapeTable where
  MACRO_OSC_SHAPE_PLUCKED := 28
  MACRO_OSC_SHAPE_BOWED := 29
  MACRO_OSC_SHAPE_BLOWN := 30
  MACRO_OSC_SHAPE_FLUTED := 31
  MACRO_OSC_SHAPE_STRUCK_BELL := 32
  MACRO_OSC_SHAPE_STRUCK_DRUM := 33
  MACRO_OSC_SHAPE_KICK := 34
  MACRO_OSC_SHAPE_SNARE := 36
  MACRO_OSC_SHAPE_CYMBAL := 35
  MACRO_OSC_SHAPE_PARTICLE_NOISE := 45
  MACRO_OSC_SHAPE_DIGITAL_MODULATION := 46
  MACRO_OSC_SHAPE_VOWEL := 22
  MACRO_OSC_SHAPE_VOWEL_FOF := 23
  MACRO_OSC_SHAPE_LAST := 48

/-- The state that `updateBraidsAudio` reads and writes: `voices[0]`, the
function-local statics, and a record of the calls made on the oscillator. -/
structure State where
  /-- `voices[0].last_trig` -/
  last_trig : Bool
  /-- `static float envelope_level` of the continuous branch -/
  envelope_level : ℚ
  /-- `static float target_level` of the continuous branch -/
  target_level : ℚ
  /-- `static float gate_level` of the trailing fade-out block -/
  gate_level : ℚ
  /-- `voices[0].pd.buffer` -/
  buffer : List Int
  /-- `voices[0].pd.sync_buffer` -/
  sync_buffer : List Nat
  /-- the shape last passed to `osc->set_shape` -/
  osc_shape : Nat
  /-- the number of `osc->Strike()` calls made so far -/
  osc_strikes : Nat
  /-- the levels by which the last call multiplied the rendered block, one
  entry per multiplication loop it ran, in order -/
  applied : List ℚ
deriving DecidableEq, Repr

/-- The state before the first call: the static initialisers of
`updateBraidsAudio` and the assignments of `initVoices`. -/
def init (ids : ShapeTable) : State where
  last_trig := false
  envelope_level := 0
  target_level := 0
  gate_level := 1
  buffer := List.replicate BLOCK_SIZE 0
  sync_buffer := List.replicate BLOCK_SIZE 0
  osc_shape := ids.MACRO_OSC_SHAPE_VOWEL_FOF
  osc_strikes := 0
  applied := []

/-- `uint8_t shape = (int)(engine_in); if (shape >= LAST) shape -= LAST;` -/
def shapeOf (ids : ShapeTable) (engine_in : Int) : Nat :=
  let shape : Nat := (engine_in % 256).toNat
  if shape ≥ ids.MACRO_OSC_SHAPE_LAST then
    (shape - ids.MACRO_OSC_SHAPE_LAST) % 256
  else shape

/-- `bool trigger = (trigger_in > 0.5f);` -/
def trigger (trigger_in : ℚ) : Bool := decide (trigger_in > 1 / 2)

/-- `bool trigger_flag = (trigger && (!voices[0].last_trig));` -/
def trigger_flag (st : State) (trigger_in : ℚ) : Bool :=
  trigger trigger_in && !st.last_trig

/-- `bool trigger_release = (!trigger && voices[0].last_trig);` -/
def trigger_release (st : State) (trigger_in : ℚ) : Bool :=
  !trigger trigger_in && st.last_trig

/-- The membership test `is_percussive` of `updateBraidsAudio`. -/
def is_percussive (ids : ShapeTable) (shape : Nat) : Bool :=
  shape == ids.MACRO_OSC_SHAPE_PLUCKED ||
  shape == ids.MACRO_OSC_SHAPE_BOWED ||
  shape == ids.MACRO_OSC_SHAPE_BLOWN ||
  shape == ids.MACRO_OSC_SHAPE_FLUTED ||
  shape == ids.MACRO_OSC_SHAPE_STRUCK_BELL ||
  shape == ids.MACRO_OSC_SHAPE_STRUCK_DRUM ||
  shape == ids.MACRO_OSC_SHAPE_KICK ||
  shape == ids.MACRO_OSC_SHAPE_SNARE ||
  shape == ids.MACRO_OSC_SHAPE_CYMBAL ||
  shape == ids.MACRO_OSC_SHAPE_PARTICLE_NOISE ||
  shape == ids.MACRO_OSC_SHAPE_DIGITAL_MODULATION

/-- The membership test `is_gated` of `updateBraidsAudio`. -/
def is_gated (ids : ShapeTable) (shape : Nat) : Bool :=
  shape == ids.MACRO_OSC_SHAPE_VOWEL ||
  shape == ids.MACRO_OSC_SHAPE_VOWEL_FOF

/-- `const float attack_rate = 0.01f;` -/
def attack_rate : ℚ := 1 / 100

/-- `const float release_rate = 0.001f;` -/
def release_rate : ℚ := 1 / 1000

/-- The target update of the continuous branch:
`if (trigger_flag) target_level = 1.0f; else if (trigger_release) target_level = 0.0f;` -/
def nextTarget (flag release : Bool) (target_level : ℚ) : ℚ :=
  if flag then 1 else if release then 0 else target_level

/-- The attack/release update of the continuous branch, run once per
block with the target already updated. -/
def nextEnvelope (target_level envelope_level : ℚ) : ℚ :=
  if target_level > envelope_level then
    let e := envelope_level + attack_rate
    if e > target_level then target_level else e
  else
    let e := envelope_level - release_rate
    if e < 0 then 0 else e

/-- The loop `buffer[i] = (int16_t)(buffer[i] * level)` over the block
that `osc->Render` has just written (`rendered i` is sample `i`). -/
def applyLevel (rendered : Nat → Int) (level : ℚ) : List Int :=
  (List.range BLOCK_SIZE).map fun i => castInt16 ((rendered i : ℚ) * level)

/-- One call of `updateBraidsAudio`. `trigger_in` and `engine_in` are the
globals of that name; `rendered` is the block that `osc->Render` writes
into `buffer` during the call. -/
def updateBraidsAudio (ids : ShapeTable) (st : State) (trigger_in : ℚ)
    (engine_in : Int) (rendered : Nat → Int) : State :=
  let shape := shapeOf ids engine_in
  let trig := trigger trigger_in
  let flag := trigger_flag st trigger_in
  let release := trigger_release st trigger_in
  if is_percussive ids shape then
    -- percussive models: `if (trigger_flag) osc->Strike();`
    let strikes := if flag then st.osc_strikes + 1 else st.osc_strikes
    -- the trailing fade-out block needs `!is_percussive`: it is skipped
    { st with
      last_trig := trig
      osc_shape := shape
      osc_strikes := strikes
      applied := []
      buffer := (List.range BLOCK_SIZE).map rendered }
  else if is_gated ids shape then
    -- gated models: `if (trigger_flag) osc->Strike();`
    let strikes := if flag then st.osc_strikes + 1 else st.osc_strikes
    -- `memset(sync_buffer, trigger ? 0xFF : 0x00, size);`
    let sync := List.replicate BLOCK_SIZE (if trig then 255 else 0)
    if trigger_in < 1 / 2 then
      let g := st.gate_level * (99 / 100)
      let g := if trigger_in > 1 / 2 then 1 else g
      { st with
        last_trig := trig
        osc_shape := shape
        osc_strikes := strikes
        sync_buffer := sync
        gate_level := g
        applied := [g]
        buffer := applyLevel rendered g }
    else
      { st with
        last_trig := trig
        osc_shape := shape
        osc_strikes := strikes
        sync_buffer := sync
        applied := []
        buffer := (List.range BLOCK_SIZE).map rendered }
  else
    -- continuous oscillators: `if (trigger_flag) { osc->Strike(); target_level = 1.0f; }`
    let strikes := if flag then st.osc_strikes + 1 else st.osc_strikes
    let target := nextTarget flag release st.target_level
    let level := nextEnvelope target st.envelope_level
    { st with
      last_trig := trig
      osc_shape := shape
      osc_strikes := strikes
      target_level := target
      envelope_level := level
      applied := [level]
      buffer := applyLevel rendered level }

/-- The inputs of one call: `trigger_in`, `engine_in` and the block the
oscillator renders. -/
structure Block where
  trigger_in : ℚ
  engine_in : Int
  rendered : Nat → Int

/-- A sequence of calls of `updateBraidsAudio`, one per block. -/
def run (ids : ShapeTable) (st : State) (blocks : List Block) : State :=
  blocks.foldl (fun s b => updateBraidsAudio ids s b.trigger_in b.engine_in b.rendered) st

/-- The behaviour class of the last `else` of `updateBraidsAudio`: a shape
that is neither percussive nor gated is a continuous oscillator. -/
def is_continuous (ids : ShapeTable) (shape : Nat) : Bool :=
  !is_percussive ids shape && !is_gated ids shape

/-- The envelope invariant: the target is 0 or 1 and the level is in `[0, 1]`. -/
def EnvelopeInv (st : State) : Prop :=
  (st.target_level = 0 ∨ st.target_level = 1) ∧
    0 ≤ st.envelope_level ∧ st.envelope_level ≤ 1

/-- A block of the gated shape `MACRO_OSC_SHAPE_VOWEL` (22 in
`braidsShapes`) with the given `trigger_in`, the oscillator rendering the
constant sample 10000. -/
def vowelBlock (trigger_in : ℚ) : Block :=
  { trigger_in := trigger_in, engine_in := 22, rendered := fun _ => 10000 }

/-- A block of the percussive shape `MACRO_OSC_SHAPE_PLUCKED` (28 in
`braidsShapes`) with the gate high, the oscillator rendering the constant
sample 10000. -/
def pluckedHighBlock : Block :=
  { trigger_in := 1, engine_in := 28, rendered := fun _ => 10000 }

/-- A block of a continuous shape (`engine_in = 0`) with the gate high, the
oscillator rendering the constant sample 10000. -/
def loudHighBlock : Block :=
  { trigger_in := 1, engine_in := 0, rendered := fun _ => 10000 }

/-! ### The envelope in single precision

The firmware computes the envelope in `float` (IEEE 754 binary32). Every
finite `float` is an integer number of units of `2^-149`, the spacing of the
smallest subnormals, so a `float` is written here as that integer: `1.0f`
is `2^149`. A sum or difference of two floats is again an integer number of
units and is rounded to the nearest `float`. -/

/-- The rational value of a `float` given in units of `2^-149`. -/
def unitsToRat (n : Int) : ℚ := (n : ℚ) / 2 ^ 149

/-- The spacing (in units of `2^-149`) of the floats around the magnitude `a`:
the least `q * 2^j` with `a < 2^24 * (q * 2^j)`, found by doubling `q` at
most `fuel` times. From `q = 1` this is 1 unit for the subnormals and the
first binade, and `2^(e - 23)` for `2^e <= a < 2^(e+1)` above them. -/
def ulpUnits : Nat → Nat → Nat → Nat
  | 0, _, q => q
  | fuel + 1, a, q => if a < 2 ^ 24 * q then q else ulpUnits fuel a (2 * q)

/-- IEEE 754 binary32 rounding (to nearest, ties to the even significand) of
an exact result `x` given in units of `2^-149`: the magnitude is rounded to
a multiple of the spacing of the floats around it, which keeps its 24
leading bits. The 254 doublings cover every finite `float` (below `2^278`
units); overflow to infinity is not modelled. -/
def roundF32 (x : Int) : Int :=
  let a : Nat := x.natAbs
  let q : Nat := ulpUnits 254 a 1
  let d : Nat := a / q
  let r : Nat := a % q
  let m : Nat := if 2 * r > q ∨ (2 * r = q ∧ d % 2 = 1) then (d + 1) * q else d * q
  if x < 0 then -(m : Int) else (m : Int)

/-- `1.0f` in units of `2^-149`. -/
def one_f32 : Int := 2 ^ 149

/-- `0.01f`, the `float` nearest to 0.01: `10737418 * 2^-30`. -/
def attack_rate_f32 : Int := 10737418 * 2 ^ 119

/-- `0.001f`, the `float` nearest to 0.001: `8589935 * 2^-33`. -/
def release_rate_f32 : Int := 8589935 * 2 ^ 116

end Braids

namespace Tides

/-! ## potentiometer.h -/

/-- `MIN_POT_CHANGE`: a locked pot reading must change by more than this to register. -/
def MIN_POT_CHANGE : Int := 20

/-- `MIN_COUNTS`: an unlocked pot must change by more than this to register. -/
def MIN_COUNTS : Int := 12

/-- `POT_AVERAGING`: the number of analog samples averaged per reading. -/
def POT_AVERAGING : Nat := 16

/-- `NPOTS`: the number of pots. -/
abbrev NPOTS : Nat := 3

/-- The analog input pins `A0`, `A1`, `A2` of the board. -/
inductive Pin where
  | A0
  | A1
  | A2
deriving DecidableEq, Repr

/-- `#define AIN0 A0` -/
def AIN0 : Pin := Pin.A0

/-- `#define AIN1 A1` -/
def AIN1 : Pin := Pin.A1

/-- `#define AIN2 A2` -/
def AIN2 : Pin := Pin.A2

/-- The globals of potentiometer.h. The arrays have `NPOTS` cells of type
`uint16_t` (resp. `bool`). -/
structure PotState where
  /-- `uint16_t potvalue[NPOTS]` -/
  potvalue : Fin NPOTS → Nat
  /-- `uint16_t lastpotvalue[NPOTS]` -/
  lastpotvalue : Fin NPOTS → Nat
  /-- `bool potlock[NPOTS]` -/
  potlock : Fin NPOTS → Bool

/-- Zero-initialised globals. -/
def PotState.zero : PotState where
  potvalue := fun _ => 0
  lastpotvalue := fun _ => 0
  potlock := fun _ => false

/-- `lockpots`: `for (int i = 0; i < NPOTS; ++i) potlock[i] = 1;` -/
def lockpots (st : PotState) : PotState :=
  (List.finRange NPOTS).foldl (fun s i => { s with potlock := Function.update s.potlock i true }) st

/-- Conversion of an `int` to `uint16_t`. -/
def toUInt16 (v : Int) : Nat := (v % 65536).toNat

/-- The pin selected by the `switch (potnum)` of `readpot`. -/
def inputOf (potnum : Fin NPOTS) : Pin :=
  match potnum.val with
  | 0 => AIN0
  | 1 => AIN1
  | 2 => AIN2
  | _ => AIN0

/-- The averaging loop of `readpot`: the sum of `POT_AVERAGING` samples of
the pin, divided by `POT_AVERAGING` with C integer division.
`analogRead input j` is the value the `j`-th `analogRead(input)` of the call
returns. -/
def average (analogRead : Pin → Nat → Int) (input : Pin) : Int :=
  (((List.range POT_AVERAGING).map (analogRead input)).sum).tdiv POT_AVERAGING

/-- The lock handling of `readpot`, from the averaged reading `val` on:
the new globals and the value returned. -/
def readpotFrom (st : PotState) (potnum : Fin NPOTS) (val : Int) : PotState × Nat :=
  if st.potlock potnum then
    let delta : Int := (st.lastpotvalue potnum : Int) - val
    if |delta| > MIN_POT_CHANGE then
      ({ potlock := Function.update st.potlock potnum false
         lastpotvalue := Function.update st.lastpotvalue potnum (toUInt16 val)
         potvalue := Function.update st.potvalue potnum (toUInt16 val) },
        toUInt16 val)
    else
      let val : Int := st.lastpotvalue potnum
      (st, toUInt16 val)
  else
    if |(st.lastpotvalue potnum : Int) - val| > MIN_COUNTS then
      ({ st with
         lastpotvalue := Function.update st.lastpotvalue potnum (toUInt16 val)
         potvalue := Function.update st.potvalue potnum (toUInt16 val) },
        toUInt16 val)
    else
      let val : Int := st.lastpotvalue potnum
      ({ st with potvalue := Function.update st.potvalue potnum (toUInt16 val) },
        toUInt16 val)

/-- One call `readpot(potnum)`: the new globals and the value returned. -/
def readpot (st : PotState) (potnum : Fin NPOTS) (analogRead : Pin → Nat → Int) :
    PotState × Nat :=
  readpotFrom st potnum (average analogRead (inputOf potnum))

/-- Successive calls `readpot(potnum)` on one channel, one per element of
`reads`: the final globals and the values returned, in order. -/
def readpots (st : PotState) (potnum : Fin NPOTS) :
    List (Pin → Nat → Int) → PotState × List Nat
  | [] => (st, [])
  | a :: rest =>
    let r := readpot st potnum a
    let rs := readpots r.1 potnum rest
    (rs.1, r.2 :: rs.2)

/-! ## tides.h -/

/-- `BLOCK_SIZE` of tides.h. -/
def BLOCK_SIZE : Nat := 16

/-- `const float SMOOTH_COEFF = 0.02f;` -/
def SMOOTH_COEFF : ℚ := 2 / 100

/-- `stmlib::GATE_FLAG_LOW` -/
def GATE_FLAG_LOW : Nat := 0

/-- `stmlib::GATE_FLAG_HIGH` -/
def GATE_FLAG_HIGH : Nat := 1

/-- `stmlib::GATE_FLAG_RISING` -/
def GATE_FLAG_RISING : Nat := 2

/-- `stmlib::GATE_FLAG_FALLING` -/
def GATE_FLAG_FALLING : Nat := 4

/-- Modelled from the spec: `stmlib::ExtractGateFlags` and the
`GATE_FLAG_*` bits above belong to the stmlib library, which is not among
the firmware sources. The primitive is the pure function
`extract_gate_flag(previous_flag, gate_is_high) -> new_flag`: rising
(together with high) when the previous flag is not high and the gate is
high, high when both are high, falling when the previous flag is high and
the gate is low, low otherwise. -/
def ExtractGateFlags (previous : Nat) (current : Bool) : Nat :=
  let previous := previous &&& GATE_FLAG_HIGH
  if current then
    if previous ≠ 0 then GATE_FLAG_HIGH else GATE_FLAG_RISING ||| GATE_FLAG_HIGH
  else
    if previous ≠ 0 then GATE_FLAG_FALLING else GATE_FLAG_LOW

/-- The gate-flag loop of `updateTidesAudio`, for `n` samples:
`gate_flags[i] = ExtractGateFlags(previous_gate_flags, gate_high);
 previous_gate_flags = gate_flags[i];` -/
def gateFlags : Nat → Nat → Bool → List Nat
  | 0, _, _ => []
  | n + 1, previous_gate_flags, gate_high =>
    let f := ExtractGateFlags previous_gate_flags gate_high
    f :: gateFlags n f gate_high

/-- The value of `previous_gate_flags` after the gate-flag loop. -/
def lastGateFlags : Nat → Nat → Bool → Nat
  | 0, previous_gate_flags, _ => previous_gate_flags
  | n + 1, previous_gate_flags, gate_high =>
    lastGateFlags n (ExtractGateFlags previous_gate_flags gate_high) gate_high

/-- One smoothing statement: `smooth += SMOOTH_COEFF * (raw - smooth);` -/
def smoothStep (smooth raw : ℚ) : ℚ := smooth + SMOOTH_COEFF * (raw - smooth)

/-- `const float output_scale = 32767.0f / 5.0f;` -/
def output_scale : ℚ := 32767 / 5

/-- The `float sample` of the conversion loop after both clamps, for the
engine sample `s = out[i].channel[0]`. -/
def clampedSample (s : ℚ) : ℚ :=
  let sample := s * output_scale
  let sample := if sample > 32767 then 32767 else sample
  let sample := if sample < -32768 then -32768 else sample
  sample

/-- The value stored in `voices[0].buffer[i]`:
`static_cast<int16_t>(sample)`. -/
def outputSample (s : ℚ) : Int := castInt16 (clampedSample s)

/-- The normalised frequency handed to the engine. `SAMPLERATE` is defined
by the sketch that includes tides.h, so it is a parameter. -/
def normalized_freq (SAMPLERATE : ℚ) (freq_smooth : ℚ) : ℚ :=
  let f := freq_smooth / SAMPLERATE
  let f := if f < 1 / 10000 then 1 / 10000 else f
  let f := if f > 1 / 4 then 1 / 4 else f
  f

/-- The globals that `updateTidesAudio` reads and writes. -/
structure State where
  freq_smooth : ℚ
  shape_smooth : ℚ
  slope_smooth : ℚ
  smooth_smooth : ℚ
  /-- `stmlib::GateFlags previous_gate_flags` -/
  previous_gate_flags : Nat
  /-- `voices[0].buffer` -/
  buffer : List Int
deriving DecidableEq, Repr

/-- The initial values of the globals of tides.h, after `initVoices`. -/
def init : State where
  freq_smooth := 440
  shape_smooth := 1 / 2
  slope_smooth := 1 / 2
  smooth_smooth := 1 / 2
  previous_gate_flags := GATE_FLAG_LOW
  buffer := List.replicate BLOCK_SIZE 0

/-- The control inputs of one block: the globals `freq_in`, `shape_in`,
`slope_in`, `smooth_in` and `trigger_in`. -/
structure Controls where
  freq_in : ℚ
  shape_in : ℚ
  slope_in : ℚ
  smooth_in : ℚ
  trigger_in : ℚ

/-- One call of `updateTidesAudio`. `out i` is `out[i].channel[0]` as
written by `poly_slope_generator.Render` during the call. -/
def updateTidesAudio (st : State) (c : Controls) (out : Nat → ℚ) : State :=
  let gate_high : Bool := decide (c.trigger_in > 1 / 2)
  { freq_smooth := smoothStep st.freq_smooth c.freq_in
    shape_smooth := smoothStep st.shape_smooth c.shape_in
    slope_smooth := smoothStep st.slope_smooth c.slope_in
    smooth_smooth := smoothStep st.smooth_smooth c.smooth_in
    previous_gate_flags := lastGateFlags BLOCK_SIZE st.previous_gate_flags gate_high
    buffer := (List.range BLOCK_SIZE).map fun i => outputSample (out i) }

/-- The `gate_flags` array that a call of `updateTidesAudio` hands to the
engine. -/
def gate_flags (st : State) (c : Controls) : List Nat :=
  gateFlags BLOCK_SIZE st.previous_gate_flags (decide (c.trigger_in > 1 / 2))

/-- A sample state of the pots: every channel locked at the stable value 100. -/
def lockedPots : PotState where
  potvalue := fun _ => 100
  lastpotvalue := fun _ => 100
  potlock := fun _ => true

/-- A sample state of the pots: every channel unlocked at the stable value 100. -/
def unlockedPots : PotState where
  potvalue := fun _ => 100
  lastpotvalue := fun _ => 100
  potlock := fun _ => false

/-- An `analogRead` that returns the same value `v` on every pin and every sample. -/
def steadyRead (v : Int) : Pin → Nat → Int := fun _ _ => v

/-- The is-high bit of a gate flag: `flags & GATE_FLAG_HIGH`. -/
def isHigh (flags : Nat) : Bool := flags &&& GATE_FLAG_HIGH != 0

/-- A gate flag is an edge flag when `GATE_FLAG_RISING` or
`GATE_FLAG_FALLING` is set in it. -/
def isEdge (flags : Nat) : Bool := flags &&& (GATE_FLAG_RISING ||| GATE_FLAG_FALLING) != 0

/-- The four smoothed controls of tides.h. -/
inductive Param where
  | freq
  | shape
  | slope
  | smooth
deriving DecidableEq, Repr

/-- The smoothed value of a control: `freq_smooth`, `shape_smooth`,
`slope_smooth` or `smooth_smooth`. -/
def State.smoothed (st : State) : Param → ℚ
  | Param.freq => st.freq_smooth
  | Param.shape => st.shape_smooth
  | Param.slope => st.slope_smooth
  | Param.smooth => st.smooth_smooth

/-- The raw value of a control: `freq_in`, `shape_in`, `slope_in` or `smooth_in`. -/
def Controls.raw (c : Controls) : Param → ℚ
  | Param.freq => c.freq_in
  | Param.shape => c.shape_in
  | Param.slope => c.slope_in
  | Param.smooth => c.smooth_in

/-- Sample controls: the defaults of tides.h with the frequency turned to 880 Hz. -/
def sampleControls : Controls where
  freq_in := 880
  shape_in := 1 / 2
  slope_in := 1 / 2
  smooth_in := 1 / 2
  trigger_in := 0

/-- The inputs of one call of `updateTidesAudio`: the control globals and
the samples the engine renders. -/
structure Block where
  controls : Controls
  out : Nat → ℚ

/-- A sequence of calls of `updateTidesAudio`, one per block. -/
def run (st : State) (blocks : List Block) : State :=
  blocks.foldl (fun s b => updateTidesAudio s b.controls b.out) st

/-- A sample block: `sampleControls` and a silent engine. -/
def sampleBlock : Block := { controls := sampleControls, out := fun _ => 0 }

/-- One call on the pot globals: `lockpots()`, or `readpot(potnum)` together
with the samples `analogRead` returns during it. -/
inductive PotCall where
  | lock
  | read (potnum : Fin NPOTS) (analogRead : Pin → Nat → Int)

/-- The globals after one call. -/
def PotCall.step (st : PotState) : PotCall → PotState
  | PotCall.lock => lockpots st
  | PotCall.read potnum analogRead => (readpot st potnum analogRead).1

/-- The globals after a sequence of calls. -/
def potRun (st : PotState) (calls : List PotCall) : PotState :=
  calls.foldl PotCall.step st

/-- The averaged reading of a `readpot` call is a 12-bit ADC value, 0..4095. -/
def PotCall.inRange : PotCall → Prop
  | PotCall.lock => True
  | PotCall.read potnum analogRead =>
    0 ≤ average analogRead (inputOf potnum) ∧ average analogRead (inputOf potnum) ≤ 4095

/-- The consistency invariant of the pot globals: the two value arrays agree
and hold 12-bit values. -/
def PotInv (st : PotState) : Prop :=
  ∀ i : Fin NPOTS, st.potvalue i = st.lastpotvalue i ∧ st.lastpotvalue i ≤ 4095

end Tides

/-! ## Conversion to `int16_t` -/

theorem castInt16_intCast (n : Int) : castInt16 (n : ℚ) = n := by
  unfold castInt16
  split_ifs <;> simp

theorem castInt16_mono {x y : ℚ} (h : x ≤ y) : castInt16 x ≤ castInt16 y := by
  unfold castInt16
  split_ifs with hx hy hy
  · exact Int.floor_mono h
  · exact absurd (le_trans hx h) hy
  · have h1 : ⌈x⌉ ≤ 0 := Int.ceil_le.mpr (by push_cast; linarith)
    have h2 : (0 : Int) ≤ ⌊y⌋ := Int.floor_nonneg.mpr hy
    exact le_trans h1 h2
  · exact Int.ceil_mono h

namespace Braids

/-! ## What one call does to each field -/

theorem updateBraidsAudio_last_trig (ids : ShapeTable) (st : State) (trigger_in : ℚ)
    (engine_in : Int) (rendered : Nat → Int) :
    (updateBraidsAudio ids st trigger_in engine_in rendered).last_trig = trigger trigger_in := by
  unfold updateBraidsAudio
  simp only
  split_ifs <;> rfl

theorem updateBraidsAudio_osc_strikes (ids : ShapeTable) (st : State) (trigger_in : ℚ)
    (engine_in : Int) (rendered : Nat → Int) :
    (updateBraidsAudio ids st trigger_in engine_in rendered).osc_strikes =
      if trigger_flag st trigger_in then st.osc_strikes + 1 else st.osc_strikes := by
  unfold updateBraidsAudio
  simp only
  split_ifs <;> rfl

theorem updateBraidsAudio_target_level (ids : ShapeTable) (st : State) (trigger_in : ℚ)
    (engine_in : Int) (rendered : Nat → Int) :
    (updateBraidsAudio ids st trigger_in engine_in rendered).target_level =
      if is_continuous ids (shapeOf ids engine_in) then
        nextTarget (trigger_flag st trigger_in) (trigger_release st trigger_in) st.target_level
      else st.target_level := by
  unfold updateBraidsAudio is_continuous
  simp only
  split_ifs <;> simp_all

theorem updateBraidsAudio_envelope_level (ids : ShapeTable) (st : State) (trigger_in : ℚ)
    (engine_in : Int) (rendered : Nat → Int) :
    (updateBraidsAudio ids st trigger_in engine_in rendered).envelope_level =
      if is_continuous ids (shapeOf ids engine_in) then
        nextEnvelope
          (nextTarget (trigger_flag st trigger_in) (trigger_release st trigger_in) st.target_level)
          st.envelope_level
      else st.envelope_level := by
  unfold updateBraidsAudio is_continuous
  simp only
  split_ifs <;> simp_all

/-! ## Envelope of the continuous branch -/

theorem nextTarget_zero_or_one (flag release : Bool) (t : ℚ) (ht : t = 0 ∨ t = 1) :
    nextTarget flag release t = 0 ∨ nextTarget flag release t = 1 := by
  unfold nextTarget
  split_ifs
  · exact Or.inr rfl
  · exact Or.inl rfl
  · exact ht

theorem nextEnvelope_bounds (t e : ℚ) (ht : t = 0 ∨ t = 1) (h0 : 0 ≤ e) (h1 : e ≤ 1) :
    0 ≤ nextEnvelope t e ∧ nextEnvelope t e ≤ 1 := by
  simp only [nextEnvelope, attack_rate, release_rate]
  rcases ht with rfl | rfl
  · split_ifs <;> constructor <;> linarith
  · split_ifs <;> constructor <;> linarith

theorem updateBraidsAudio_preserves_inv (ids : ShapeTable) (st : State) (trigger_in : ℚ)
    (engine_in : Int) (rendered : Nat → Int) (h : EnvelopeInv st) :
    EnvelopeInv (updateBraidsAudio ids st trigger_in engine_in rendered) := by
  obtain ⟨ht, h0, h1⟩ := h
  unfold EnvelopeInv
  rw [updateBraidsAudio_target_level, updateBraidsAudio_envelope_level]
  split_ifs
  · exact ⟨nextTarget_zero_or_one _ _ _ ht,
      nextEnvelope_bounds _ _ (nextTarget_zero_or_one _ _ _ ht) h0 h1⟩
  · exact ⟨ht, h0, h1⟩

theorem run_preserves_inv (ids : ShapeTable) (blocks : List Block) (st : State)
    (h : EnvelopeInv st) : EnvelopeInv (run ids st blocks) := by
  induction blocks generalizing st with
  | nil => exact h
  | cons b rest ih =>
    exact ih _ (updateBraidsAudio_preserves_inv ids st b.trigger_in b.engine_in b.rendered h)

/-- C1. From the initial state (`envelope_level = 0`, `target_level = 0`,
`last_trig = false`), after every finite sequence of calls of
`updateBraidsAudio` with arbitrary `trigger_in` and `engine_in` (any mix of
behaviour classes, any rendered blocks, any shape table), `target_level` is
0 or 1 and `envelope_level` lies in `[0, 1]`. Every prefix of a sequence is
a sequence, so the bound holds after every call. -/
theorem envelope_bound_invariant (ids : ShapeTable) (blocks : List Block) :
    ((run ids (init ids) blocks).target_level = 0 ∨
        (run ids (init ids) blocks).target_level = 1) ∧
      0 ≤ (run ids (init ids) blocks).envelope_level ∧
      (run ids (init ids) blocks).envelope_level ≤ 1 := by
  have h : EnvelopeInv (init ids) := by
    refine ⟨Or.inl rfl, ?_, ?_⟩ <;> simp [init]
  exact run_preserves_inv ids blocks (init ids) h

/-! ## Attack with the gate held high -/

theorem run_cons (ids : ShapeTable) (st : State) (b : Block) (rest : List Block) :
    run ids st (b :: rest) =
      run ids (updateBraidsAudio ids st b.trigger_in b.engine_in b.rendered) rest := rfl

/-- Below the target the attack step does not move away from it. -/
theorem nextEnvelope_attack_below (e : ℚ) (h1 : e < 1) :
    e ≤ nextEnvelope 1 e ∧ nextEnvelope 1 e ≤ 1 := by
  simp only [nextEnvelope, attack_rate, release_rate]
  split_ifs <;> constructor <;> linarith

/-- C6. Trigger edge detector. In the state reached after any sequence of
blocks, and for any next block, with `current = (trigger_in > 0.5)`:
`trigger_flag = current && !last_trig`,
`trigger_release = !current && last_trig`, the call leaves
`last_trig = current` whatever the behaviour class of the shape, and
`trigger_flag` and `trigger_release` are not both true. -/
theorem trigger_edge_detector (ids : ShapeTable) (st : State) (blocks : List Block)
    (b : Block) :
    trigger_flag (run ids st blocks) b.trigger_in =
        (decide (b.trigger_in > 1 / 2) && !(run ids st blocks).last_trig) ∧
      trigger_release (run ids st blocks) b.trigger_in =
        (!decide (b.trigger_in > 1 / 2) && (run ids st blocks).last_trig) ∧
      (updateBraidsAudio ids (run ids st blocks) b.trigger_in b.engine_in b.rendered).last_trig =
        decide (b.trigger_in > 1 / 2) ∧
      ¬(trigger_flag (run ids st blocks) b.trigger_in = true ∧
          trigger_release (run ids st blocks) b.trigger_in = true) := by
  refine ⟨rfl, rfl, updateBraidsAudio_last_trig _ _ _ _ _, ?_⟩
  unfold trigger_flag trigger_release
  cases trigger b.trigger_in <;> cases (run ids st blocks).last_trig <;> simp

/-- C7. Strike discipline. For every shape table, state and inputs (so for
every behaviour class of the shape), one call of `updateBraidsAudio` calls
`Strike()` exactly once when the block has a rising edge
(`trigger_in > 0.5` with `last_trig` false) and not at all otherwise: not
with the gate held high, not on a falling edge, not with the gate low. -/
theorem strike_discipline (ids : ShapeTable) (st : State) (trigger_in : ℚ)
    (engine_in : Int) (rendered : Nat → Int) :
    (updateBraidsAudio ids st trigger_in engine_in rendered).osc_strikes =
      st.osc_strikes + (if trigger_in > 1 / 2 ∧ st.last_trig = false then 1 else 0) := by
  rw [updateBraidsAudio_osc_strikes]
  unfold trigger_flag trigger
  by_cases h : trigger_in > 1 / 2 <;> cases st.last_trig <;> simp only [h] <;> simp

/-! ## Release with the gate held low -/

theorem nextEnvelope_release (e : ℚ) (h0 : 0 ≤ e) : nextEnvelope 0 e = max (e - 1 / 1000) 0 := by
  simp only [nextEnvelope, release_rate]
  rw [if_neg (not_lt.mpr h0)]
  split_ifs with h
  · rw [max_eq_right (le_of_lt h)]
  · rw [max_eq_left (not_lt.mp h)]

/-- A low-gate continuous block from a state with the gate already low and
target 0: no edge, the target stays 0, the level takes one envelope step. -/
theorem low_step (ids : ShapeTable) (s : State) (ht : s.target_level = 0)
    (hl : s.last_trig = false) (b : Block) (hb : ¬ b.trigger_in > 1 / 2)
    (hc : is_continuous ids (shapeOf ids b.engine_in) = true) :
    (updateBraidsAudio ids s b.trigger_in b.engine_in b.rendered).target_level = 0 ∧
      (updateBraidsAudio ids s b.trigger_in b.engine_in b.rendered).last_trig = false ∧
      (updateBraidsAudio ids s b.trigger_in b.engine_in b.rendered).envelope_level =
        nextEnvelope 0 s.envelope_level := by
  have htr : trigger b.trigger_in = false := decide_eq_false hb
  rw [updateBraidsAudio_target_level, updateBraidsAudio_last_trig,
    updateBraidsAudio_envelope_level, hc]
  simp [trigger_flag, trigger_release, htr, hl, ht, nextTarget]

theorem release_max_step (e : ℚ) (k : Nat) :
    max (max (e - 1 / 1000) 0 - (k : ℚ) / 1000) 0 = max (e - ((k + 1 : Nat) : ℚ) / 1000) 0 := by
  have hk : (0 : ℚ) ≤ k := Nat.cast_nonneg k
  push_cast
  rcases le_total (e - 1 / 1000) 0 with h | h
  · rw [max_eq_right h, max_eq_right (by linarith), max_eq_right (by linarith)]
  · rw [max_eq_left h]
    congr 1
    ring

/-- Release in the exact-arithmetic reading of the envelope (`nextEnvelope`
subtracts in the rationals). From a state with the gate low (`last_trig`
false), `target_level = 0` and `envelope_level` in `[0, 1]`, one
continuous-class block with the gate low gives
`envelope_level = max(level - 0.001, 0)`; after `n` such blocks the level is
`max(level - n * 0.001, 0)`, which is 0 once `n >= 1000`. The `float`
arithmetic of the code rounds every difference and is treated below
(`nextEnvelopeF32`). -/
theorem release_converges_exact (ids : ShapeTable) (st : State) (ht : st.target_level = 0)
    (hl : st.last_trig = false) (h0 : 0 ≤ st.envelope_level) (h1 : st.envelope_level ≤ 1)
    (blocks : List Block)
    (hb : ∀ b ∈ blocks,
      ¬ b.trigger_in > 1 / 2 ∧ is_continuous ids (shapeOf ids b.engine_in) = true) :
    (∀ b : Block, ¬ b.trigger_in > 1 / 2 →
        is_continuous ids (shapeOf ids b.engine_in) = true →
        (updateBraidsAudio ids st b.trigger_in b.engine_in b.rendered).envelope_level =
          max (st.envelope_level - 1 / 1000) 0) ∧
      (run ids st blocks).target_level = 0 ∧
      (run ids st blocks).last_trig = false ∧
      (run ids st blocks).envelope_level =
        max (st.envelope_level - (blocks.length : ℚ) / 1000) 0 ∧
      (run ids st blocks).envelope_level ≤ st.envelope_level ∧
      0 ≤ (run ids st blocks).envelope_level ∧
      (1000 ≤ blocks.length → (run ids st blocks).envelope_level = 0) := by
  have hrun : (run ids st blocks).target_level = 0 ∧ (run ids st blocks).last_trig = false ∧
      (run ids st blocks).envelope_level =
        max (st.envelope_level - (blocks.length : ℚ) / 1000) 0 := by
    clear h1
    induction blocks generalizing st with
    | nil =>
      refine ⟨ht, hl, ?_⟩
      simp [run, h0]
    | cons b rest ih =>
      obtain ⟨hb1, hb2⟩ := hb b (List.mem_cons_self _ _)
      obtain ⟨a1, a2, a3⟩ := low_step ids st ht hl b hb1 hb2
      rw [nextEnvelope_release _ h0] at a3
      have h := ih _ a1 a2 (by rw [a3]; exact le_max_right _ _)
        (fun x hx => hb x (List.mem_cons_of_mem _ hx))
      rw [run_cons]
      refine ⟨h.1, h.2.1, ?_⟩
      rw [h.2.2, a3, release_max_step, List.length_cons]
  obtain ⟨r1, r2, r3⟩ := hrun
  have hn : (0 : ℚ) ≤ (blocks.length : ℚ) := Nat.cast_nonneg _
  refine ⟨?_, r1, r2, r3, ?_, ?_, ?_⟩
  · intro b hb1 hb2
    rw [(low_step ids st ht hl b hb1 hb2).2.2, nextEnvelope_release _ h0]
  · rw [r3]
    exact max_le (by linarith) h0
  · rw [r3]
    exact le_max_right _ _
  · intro hlen
    rw [r3]
    have : (1000 : ℚ) ≤ (blocks.length : ℚ) := by exact_mod_cast hlen
    exact max_eq_right (by linarith)

theorem updateBraidsAudio_continuous (ids : ShapeTable) (st : State) (trigger_in : ℚ)
    (engine_in : Int) (rendered : Nat → Int)
    (hc : is_continuous ids (shapeOf ids engine_in) = true) :
    updateBraidsAudio ids st trigger_in engine_in rendered =
      { st with
        last_trig := trigger trigger_in
        osc_shape := shapeOf ids engine_in
        osc_strikes := if trigger_flag st trigger_in then st.osc_strikes + 1 else st.osc_strikes
        target_level :=
          nextTarget (trigger_flag st trigger_in) (trigger_release st trigger_in) st.target_level
        envelope_level := nextEnvelope
          (nextTarget (trigger_flag st trigger_in) (trigger_release st trigger_in) st.target_level)
          st.envelope_level
        applied := [nextEnvelope
          (nextTarget (trigger_flag st trigger_in) (trigger_release st trigger_in) st.target_level)
          st.envelope_level]
        buffer := applyLevel rendered (nextEnvelope
          (nextTarget (trigger_flag st trigger_in) (trigger_release st trigger_in) st.target_level)
          st.envelope_level) } := by
  unfold is_continuous at hc
  simp only [Bool.and_eq_true, Bool.not_eq_true'] at hc
  unfold updateBraidsAudio
  simp only [hc.1, hc.2, Bool.false_eq_true, if_false]

theorem updateBraidsAudio_percussive (ids : ShapeTable) (st : State) (trigger_in : ℚ)
    (engine_in : Int) (rendered : Nat → Int)
    (hp : is_percussive ids (shapeOf ids engine_in) = true) :
    updateBraidsAudio ids st trigger_in engine_in rendered =
      { st with
        last_trig := trigger trigger_in
        osc_shape := shapeOf ids engine_in
        osc_strikes := if trigger_flag st trigger_in then st.osc_strikes + 1 else st.osc_strikes
        applied := []
        buffer := (List.range BLOCK_SIZE).map rendered } := by
  unfold updateBraidsAudio
  simp only [hp, if_true]

theorem updateBraidsAudio_gated_low (ids : ShapeTable) (st : State) (trigger_in : ℚ)
    (engine_in : Int) (rendered : Nat → Int)
    (hp : is_percussive ids (shapeOf ids engine_in) = false)
    (hg : is_gated ids (shapeOf ids engine_in) = true) (ht : trigger_in < 1 / 2) :
    updateBraidsAudio ids st trigger_in engine_in rendered =
      { st with
        last_trig := trigger trigger_in
        osc_shape := shapeOf ids engine_in
        osc_strikes := if trigger_flag st trigger_in then st.osc_strikes + 1 else st.osc_strikes
        sync_buffer := List.replicate BLOCK_SIZE (if trigger trigger_in then 255 else 0)
        gate_level := st.gate_level * (99 / 100)
        applied := [st.gate_level * (99 / 100)]
        buffer := applyLevel rendered (st.gate_level * (99 / 100)) } := by
  unfold updateBraidsAudio
  have hn : ¬ trigger_in > 1 / 2 := not_lt.mpr (le_of_lt ht)
  simp only [hp, hg, ht, hn, Bool.false_eq_true, if_false, if_true]

theorem updateBraidsAudio_gated_high (ids : ShapeTable) (st : State) (trigger_in : ℚ)
    (engine_in : Int) (rendered : Nat → Int)
    (hp : is_percussive ids (shapeOf ids engine_in) = false)
    (hg : is_gated ids (shapeOf ids engine_in) = true) (ht : ¬ trigger_in < 1 / 2) :
    updateBraidsAudio ids st trigger_in engine_in rendered =
      { st with
        last_trig := trigger trigger_in
        osc_shape := shapeOf ids engine_in
        osc_strikes := if trigger_flag st trigger_in then st.osc_strikes + 1 else st.osc_strikes
        sync_buffer := List.replicate BLOCK_SIZE (if trigger trigger_in then 255 else 0)
        applied := []
        buffer := (List.range BLOCK_SIZE).map rendered } := by
  unfold updateBraidsAudio
  simp only [hp, hg, ht, Bool.false_eq_true, if_false, if_true]

theorem continuous_buffer (ids : ShapeTable) (st : State) (trigger_in : ℚ)
    (engine_in : Int) (rendered : Nat → Int)
    (hc : is_continuous ids (shapeOf ids engine_in) = true) :
    (updateBraidsAudio ids st trigger_in engine_in rendered).buffer =
      applyLevel rendered
        (updateBraidsAudio ids st trigger_in engine_in rendered).envelope_level := by
  rw [updateBraidsAudio_continuous ids st trigger_in engine_in rendered hc]

/-! ## The low, high, low scenario -/

theorem updateBraidsAudio_osc_shape (ids : ShapeTable) (st : State) (trigger_in : ℚ)
    (engine_in : Int) (rendered : Nat → Int) :
    (updateBraidsAudio ids st trigger_in engine_in rendered).osc_shape =
      shapeOf ids engine_in := by
  unfold updateBraidsAudio
  simp only
  split_ifs <;> rfl

/-- C13. Shape wraparound. With `L = MACRO_OSC_SHAPE_LAST` and `s` the value
of `engine_in` truncated to `uint8_t`, every call passes to `set_shape` the
value `s` when `s < L` and `s - L` when `s >= L` (one subtraction, nothing
more; no selector is rejected). Hence for `0 <= engine_in < 2 * L` with
`engine_in < 256` the shape passed is `engine_in mod L` and is below `L`. -/
theorem shape_wraparound (ids : ShapeTable) (st : State) (trigger_in : ℚ)
    (engine_in : Int) (rendered : Nat → Int) :
    (updateBraidsAudio ids st trigger_in engine_in rendered).osc_shape =
        (if (engine_in % 256).toNat < ids.MACRO_OSC_SHAPE_LAST then (engine_in % 256).toNat
          else (engine_in % 256).toNat - ids.MACRO_OSC_SHAPE_LAST) ∧
      (0 ≤ engine_in → engine_in < 2 * (ids.MACRO_OSC_SHAPE_LAST : Int) → engine_in < 256 →
        ((updateBraidsAudio ids st trigger_in engine_in rendered).osc_shape : Int) =
            engine_in % (ids.MACRO_OSC_SHAPE_LAST : Int) ∧
          (updateBraidsAudio ids st trigger_in engine_in rendered).osc_shape <
            ids.MACRO_OSC_SHAPE_LAST) := by
  rw [updateBraidsAudio_osc_shape]
  have hs : (engine_in % 256).toNat < 256 := by omega
  have hdef : shapeOf ids engine_in =
      (if (engine_in % 256).toNat < ids.MACRO_OSC_SHAPE_LAST then (engine_in % 256).toNat
        else (engine_in % 256).toNat - ids.MACRO_OSC_SHAPE_LAST) := by
    unfold shapeOf
    simp only
    split_ifs with h1 h2 h2
    · omega
    · exact Nat.mod_eq_of_lt (by omega)
    · rfl
    · omega
  refine ⟨hdef, ?_⟩
  intro h0 h1 h2
  rw [hdef]
  have he : (engine_in % 256).toNat = engine_in.toNat := by omega
  rw [he]
  split_ifs with h
  · constructor
    · rw [Int.emod_eq_of_lt h0 (by omega)]
      omega
    · exact h
  · constructor
    · have hL : (ids.MACRO_OSC_SHAPE_LAST : Int) ≤ engine_in := by omega
      have : engine_in % (ids.MACRO_OSC_SHAPE_LAST : Int) =
          engine_in - ids.MACRO_OSC_SHAPE_LAST := by
        rw [Int.emod_eq_sub_self_emod, Int.emod_eq_of_lt (by omega) (by omega)]
      rw [this]
      omega
    · omega

/-! ## The two fade-out mechanisms -/

theorem class_cases (ids : ShapeTable) (shape : Nat) :
    is_percussive ids shape = true ∨
      (is_percussive ids shape = false ∧ is_gated ids shape = true) ∨
      is_continuous ids shape = true := by
  unfold is_continuous
  cases is_percussive ids shape <;> cases is_gated ids shape <;> simp

theorem applied_length_le_one (ids : ShapeTable) (st : State) (trigger_in : ℚ)
    (engine_in : Int) (rendered : Nat → Int) :
    (updateBraidsAudio ids st trigger_in engine_in rendered).applied.length ≤ 1 := by
  rcases class_cases ids (shapeOf ids engine_in) with hp | ⟨hp, hg⟩ | hc
  · rw [updateBraidsAudio_percussive ids st trigger_in engine_in rendered hp]
    exact Nat.zero_le 1
  · by_cases ht : trigger_in < 1 / 2
    · rw [updateBraidsAudio_gated_low ids st trigger_in engine_in rendered hp hg ht]
      exact Nat.le_refl 1
    · rw [updateBraidsAudio_gated_high ids st trigger_in engine_in rendered hp hg ht]
      exact Nat.zero_le 1
  · rw [updateBraidsAudio_continuous ids st trigger_in engine_in rendered hc]
    exact Nat.le_refl 1

/-- C16 as stated fails: there is no shape table, state, `trigger_in`,
`engine_in` and rendered block for which one call of `updateBraidsAudio`
runs two multiplication loops over the block. -/
theorem no_double_attenuation :
    ¬ ∃ (ids : ShapeTable) (st : State) (trigger_in : ℚ) (engine_in : Int)
        (rendered : Nat → Int),
        2 ≤ (updateBraidsAudio ids st trigger_in engine_in rendered).applied.length := by
  rintro ⟨ids, st, trigger_in, engine_in, rendered, h⟩
  have := applied_length_le_one ids st trigger_in engine_in rendered
  omega

/-- C16, amended. A call of `updateBraidsAudio` multiplies the rendered block
by at most one level. For a continuous shape it is `envelope_level` only
(the branch returns before the gate fade, and `gate_level` is left
untouched); for a gated, non-percussive shape with `trigger_in < 0.5` it is
`gate_level` only (decayed by 0.99 in the call; `envelope_level` is left
untouched); in every other call the block is stored as rendered. -/
theorem single_attenuation (ids : ShapeTable) (st : State) (trigger_in : ℚ)
    (engine_in : Int) (rendered : Nat → Int) :
    (updateBraidsAudio ids st trigger_in engine_in rendered).applied.length ≤ 1 ∧
      (is_continuous ids (shapeOf ids engine_in) = true →
        (updateBraidsAudio ids st trigger_in engine_in rendered).applied =
            [(updateBraidsAudio ids st trigger_in engine_in rendered).envelope_level] ∧
          (updateBraidsAudio ids st trigger_in engine_in rendered).buffer =
            applyLevel rendered
              (updateBraidsAudio ids st trigger_in engine_in rendered).envelope_level ∧
          (updateBraidsAudio ids st trigger_in engine_in rendered).gate_level =
            st.gate_level) ∧
      (is_percussive ids (shapeOf ids engine_in) = false →
        is_gated ids (shapeOf ids engine_in) = true → trigger_in < 1 / 2 →
        (updateBraidsAudio ids st trigger_in engine_in rendered).applied =
            [(updateBraidsAudio ids st trigger_in engine_in rendered).gate_level] ∧
          (updateBraidsAudio ids st trigger_in engine_in rendered).gate_level =
            st.gate_level * (99 / 100) ∧
          (updateBraidsAudio ids st trigger_in engine_in rendered).buffer =
            applyLevel rendered
              (updateBraidsAudio ids st trigger_in engine_in rendered).gate_level ∧
          (updateBraidsAudio ids st trigger_in engine_in rendered).envelope_level =
            st.envelope_level) ∧
      (is_percussive ids (shapeOf ids engine_in) = true ∨
          (is_gated ids (shapeOf ids engine_in) = true ∧ ¬ trigger_in < 1 / 2) →
        (updateBraidsAudio ids st trigger_in engine_in rendered).applied = [] ∧
          (updateBraidsAudio ids st trigger_in engine_in rendered).buffer =
            (List.range BLOCK_SIZE).map rendered) := by
  refine ⟨applied_length_le_one _ _ _ _ _, ?_, ?_, ?_⟩
  · intro hc
    rw [updateBraidsAudio_continuous ids st trigger_in engine_in rendered hc]
    exact ⟨rfl, rfl, rfl⟩
  · intro hp hg ht
    rw [updateBraidsAudio_gated_low ids st trigger_in engine_in rendered hp hg ht]
    exact ⟨rfl, rfl, rfl, rfl⟩
  · intro h
    by_cases hp : is_percussive ids (shapeOf ids engine_in) = true
    · rw [updateBraidsAudio_percussive ids st trigger_in engine_in rendered hp]
      exact ⟨rfl, rfl⟩
    · rcases h with h | ⟨hg, ht⟩
      · exact absurd h hp
      · have hp' : is_percussive ids (shapeOf ids engine_in) = false := by simpa using hp
        rw [updateBraidsAudio_gated_high ids st trigger_in engine_in rendered hp' hg ht]
        exact ⟨rfl, rfl⟩

theorem gate_level_step (ids : ShapeTable) (st : State) (trigger_in : ℚ)
    (engine_in : Int) (rendered : Nat → Int) :
    (updateBraidsAudio ids st trigger_in engine_in rendered).gate_level = st.gate_level ∨
      (updateBraidsAudio ids st trigger_in engine_in rendered).gate_level =
        st.gate_level * (99 / 100) := by
  rcases class_cases ids (shapeOf ids engine_in) with hp | ⟨hp, hg⟩ | hc
  · rw [updateBraidsAudio_percussive ids st trigger_in engine_in rendered hp]
    exact Or.inl rfl
  · by_cases ht : trigger_in < 1 / 2
    · rw [updateBraidsAudio_gated_low ids st trigger_in engine_in rendered hp hg ht]
      exact Or.inr rfl
    · rw [updateBraidsAudio_gated_high ids st trigger_in engine_in rendered hp hg ht]
      exact Or.inl rfl
  · rw [updateBraidsAudio_continuous ids st trigger_in engine_in rendered hc]
    exact Or.inl rfl

theorem vowelBlock_class (t : ℚ) :
    is_percussive braidsShapes (shapeOf braidsShapes (vowelBlock t).engine_in) = false ∧
      is_gated braidsShapes (shapeOf braidsShapes (vowelBlock t).engine_in) = true := by
  have h : (vowelBlock t).engine_in = 22 := rfl
  rw [h]
  exact ⟨by decide, by decide⟩

theorem applyLevel_const (b : Int) (level : ℚ) :
    applyLevel (fun _ => b) level = List.replicate 32 (castInt16 ((b : ℚ) * level)) := by
  unfold applyLevel BLOCK_SIZE
  rw [List.map_const', List.length_range]

/-- C17. The secondary gate fade is never reset. No call of
`updateBraidsAudio` sets `gate_level` to 1.0: a call leaves it as it was or
multiplies it by 0.99. On the gated shape `MACRO_OSC_SHAPE_VOWEL`, from the
initial state, a gate-off block brings `gate_level` to 0.99, a block with a
new trigger (`trigger_in = 1.0`) leaves it at 0.99, and the next gate-off
block continues the fade from there: `gate_level = 0.9801`, and a rendered
sample of 10000 is stored as 9801, not as the 9900 of a fade restarted from
full level. -/
theorem gate_fade_never_resets :
    (∀ (ids : ShapeTable) (st : State) (trigger_in : ℚ) (engine_in : Int)
        (rendered : Nat → Int),
        (updateBraidsAudio ids st trigger_in engine_in rendered).gate_level = st.gate_level ∨
          (updateBraidsAudio ids st trigger_in engine_in rendered).gate_level =
            st.gate_level * (99 / 100)) ∧
      (run braidsShapes (init braidsShapes) [vowelBlock 0]).gate_level = 99 / 100 ∧
      (run braidsShapes (init braidsShapes) [vowelBlock 0, vowelBlock 1]).gate_level =
        99 / 100 ∧
      (run braidsShapes (init braidsShapes) [vowelBlock 0, vowelBlock 1]).osc_strikes = 1 ∧
      (run braidsShapes (init braidsShapes)
        [vowelBlock 0, vowelBlock 1, vowelBlock 0]).gate_level = 9801 / 10000 ∧
      (run braidsShapes (init braidsShapes)
        [vowelBlock 0, vowelBlock 1, vowelBlock 0]).buffer = List.replicate 32 9801 := by
  have hlo : (vowelBlock 0).trigger_in < 1 / 2 := by norm_num [vowelBlock]
  have hhi : ¬ (vowelBlock 1).trigger_in < 1 / 2 := by norm_num [vowelBlock]
  have e1 : run braidsShapes (init braidsShapes) [vowelBlock 0] = _ :=
    updateBraidsAudio_gated_low braidsShapes (init braidsShapes) _ _ (vowelBlock 0).rendered
      (vowelBlock_class 0).1 (vowelBlock_class 0).2 hlo
  have g1 : (run braidsShapes (init braidsShapes) [vowelBlock 0]).gate_level = 99 / 100 := by
    rw [e1]
    norm_num [init]
  have l1 : (run braidsShapes (init braidsShapes) [vowelBlock 0]).last_trig = false := by
    rw [e1]
    exact decide_eq_false (by norm_num [vowelBlock])
  have k1 : (run braidsShapes (init braidsShapes) [vowelBlock 0]).osc_strikes = 0 := by
    rw [e1]
    simp [trigger_flag, trigger, vowelBlock, init]
  have e2 : run braidsShapes (init braidsShapes) [vowelBlock 0, vowelBlock 1] = _ :=
    updateBraidsAudio_gated_high braidsShapes
      (run braidsShapes (init braidsShapes) [vowelBlock 0]) _ _ (vowelBlock 1).rendered
      (vowelBlock_class 1).1 (vowelBlock_class 1).2 hhi
  have g2 : (run braidsShapes (init braidsShapes) [vowelBlock 0, vowelBlock 1]).gate_level =
      99 / 100 := by
    rw [e2]
    exact g1
  have k2 : (run braidsShapes (init braidsShapes) [vowelBlock 0, vowelBlock 1]).osc_strikes =
      1 := by
    rw [e2]
    have ht : trigger (vowelBlock 1).trigger_in = true :=
      decide_eq_true (by norm_num [vowelBlock])
    simp [trigger_flag, ht, l1, k1]
  have e3 : run braidsShapes (init braidsShapes) [vowelBlock 0, vowelBlock 1, vowelBlock 0] =
      _ :=
    updateBraidsAudio_gated_low braidsShapes
      (run braidsShapes (init braidsShapes) [vowelBlock 0, vowelBlock 1]) _ _
      (vowelBlock 0).rendered (vowelBlock_class 0).1 (vowelBlock_class 0).2 hlo
  refine ⟨gate_level_step, g1, g2, k2, ?_, ?_⟩
  · rw [e3]
    simp only [g2]
    norm_num
  · rw [e3]
    simp only [g2]
    have hr : (vowelBlock 0).rendered = fun _ => 10000 := rfl
    rw [hr, applyLevel_const]
    congr 1
    have hv : ((10000 : Int) : ℚ) * (99 / 100 * (99 / 100)) = ((9801 : Int) : ℚ) := by
      norm_num
    rw [hv, castInt16_intCast]

/-! ## A rising edge consumed by another class -/

theorem applyLevel_zero (rendered : Nat → Int) :
    applyLevel rendered 0 = List.replicate 32 0 := by
  unfold applyLevel BLOCK_SIZE
  have h : (fun i => castInt16 ((rendered i : ℚ) * 0)) = fun _ => (0 : Int) := by
    funext i
    rw [mul_zero]
    exact_mod_cast castInt16_intCast 0
  rw [h, List.map_const', List.length_range]

/-- A high-gate continuous block from a state with the gate already high,
target 0 and level 0: nothing moves, no strike, and the block is silenced. -/
theorem muted_step (ids : ShapeTable) (s : State) (ht : s.target_level = 0)
    (he : s.envelope_level = 0) (hl : s.last_trig = true) (b : Block)
    (hb : b.trigger_in > 1 / 2)
    (hc : is_continuous ids (shapeOf ids b.engine_in) = true) :
    (updateBraidsAudio ids s b.trigger_in b.engine_in b.rendered).target_level = 0 ∧
      (updateBraidsAudio ids s b.trigger_in b.engine_in b.rendered).envelope_level = 0 ∧
      (updateBraidsAudio ids s b.trigger_in b.engine_in b.rendered).last_trig = true ∧
      (updateBraidsAudio ids s b.trigger_in b.engine_in b.rendered).osc_strikes =
        s.osc_strikes ∧
      (updateBraidsAudio ids s b.trigger_in b.engine_in b.rendered).buffer =
        List.replicate 32 0 := by
  have htr : trigger b.trigger_in = true := decide_eq_true hb
  have hlev : (updateBraidsAudio ids s b.trigger_in b.engine_in b.rendered).envelope_level =
      0 := by
    rw [updateBraidsAudio_envelope_level, hc]
    norm_num [trigger_flag, trigger_release, htr, hl, ht, he, nextTarget, nextEnvelope,
      release_rate]
  refine ⟨?_, hlev, ?_, ?_, ?_⟩
  · rw [updateBraidsAudio_target_level, hc]
    simp [trigger_flag, trigger_release, htr, hl, ht, nextTarget]
  · rw [updateBraidsAudio_last_trig, htr]
  · rw [updateBraidsAudio_osc_strikes]
    simp [trigger_flag, htr, hl]
  · rw [continuous_buffer ids s _ _ _ hc, hlev, applyLevel_zero]

theorem muted_run (ids : ShapeTable) (blocks : List Block)
    (hb : ∀ b ∈ blocks,
      b.trigger_in > 1 / 2 ∧ is_continuous ids (shapeOf ids b.engine_in) = true)
    (s : State) (ht : s.target_level = 0) (he : s.envelope_level = 0)
    (hl : s.last_trig = true) :
    (run ids s blocks).target_level = 0 ∧ (run ids s blocks).envelope_level = 0 ∧
      (run ids s blocks).last_trig = true ∧
      (run ids s blocks).osc_strikes = s.osc_strikes ∧
      (blocks ≠ [] → (run ids s blocks).buffer = List.replicate 32 0) := by
  induction blocks generalizing s with
  | nil => exact ⟨ht, he, hl, rfl, fun h => absurd rfl h⟩
  | cons b rest ih =>
    obtain ⟨hb1, hb2⟩ := hb b (List.mem_cons_self _ _)
    obtain ⟨a1, a2, a3, a4, a5⟩ := muted_step ids s ht he hl b hb1 hb2
    obtain ⟨i1, i2, i3, i4, i5⟩ :=
      ih (fun x hx => hb x (List.mem_cons_of_mem _ hx)) _ a1 a2 a3
    rw [run_cons]
    refine ⟨i1, i2, i3, by rw [i4, a4], fun _ => ?_⟩
    cases rest with
    | nil => exact a5
    | cons c more => exact i5 (List.cons_ne_nil _ _)

/-- C18. The envelope target can lose the gate across a class change. Start
from the initial state; let the gate rise in a block whose shape is not
continuous (percussive or gated), which consumes the rising edge through
`last_trig`; then switch to continuous shapes with the gate still high.
After any number of such continuous blocks `target_level` is still 0,
`envelope_level` is still 0, `Strike()` has been called once only (in the
first block), and after each of them every sample of the output buffer is 0
although the gate is high. -/
theorem target_desync_across_classes (ids : ShapeTable) (b0 : Block)
    (h0 : b0.trigger_in > 1 / 2)
    (hc0 : is_continuous ids (shapeOf ids b0.engine_in) = false)
    (blocks : List Block)
    (hb : ∀ b ∈ blocks,
      b.trigger_in > 1 / 2 ∧ is_continuous ids (shapeOf ids b.engine_in) = true) :
    (run ids (init ids) (b0 :: blocks)).last_trig = true ∧
      (run ids (init ids) (b0 :: blocks)).target_level = 0 ∧
      (run ids (init ids) (b0 :: blocks)).envelope_level = 0 ∧
      (run ids (init ids) (b0 :: blocks)).osc_strikes = 1 ∧
      (blocks ≠ [] →
        (run ids (init ids) (b0 :: blocks)).buffer = List.replicate 32 0) := by
  have htr : trigger b0.trigger_in = true := decide_eq_true h0
  have a1 : (updateBraidsAudio ids (init ids) b0.trigger_in b0.engine_in
      b0.rendered).target_level = 0 := by
    rw [updateBraidsAudio_target_level, hc0]
    rfl
  have a2 : (updateBraidsAudio ids (init ids) b0.trigger_in b0.engine_in
      b0.rendered).envelope_level = 0 := by
    rw [updateBraidsAudio_envelope_level, hc0]
    rfl
  have a3 : (updateBraidsAudio ids (init ids) b0.trigger_in b0.engine_in
      b0.rendered).last_trig = true := by
    rw [updateBraidsAudio_last_trig, htr]
  have a4 : (updateBraidsAudio ids (init ids) b0.trigger_in b0.engine_in
      b0.rendered).osc_strikes = 1 := by
    rw [updateBraidsAudio_osc_strikes]
    simp [trigger_flag, htr, init]
  obtain ⟨i1, i2, i3, i4, i5⟩ := muted_run ids blocks hb _ a1 a2 a3
  rw [run_cons]
  exact ⟨i3, i1, i2, by rw [i4, a4], i5⟩

/-- Witness of `target_desync_across_classes`: the gate rises on the
percussive shape `MACRO_OSC_SHAPE_PLUCKED`, then two blocks of shape 0 with
the gate high and a rendered sample of 10000. -/
theorem target_desync_across_classes_witness :
    (run braidsShapes (init braidsShapes)
        [pluckedHighBlock, loudHighBlock, loudHighBlock]).target_level = 0 ∧
      (run braidsShapes (init braidsShapes)
        [pluckedHighBlock, loudHighBlock, loudHighBlock]).envelope_level = 0 ∧
      (run braidsShapes (init braidsShapes)
        [pluckedHighBlock, loudHighBlock, loudHighBlock]).buffer = List.replicate 32 0 := by
  have h := target_desync_across_classes braidsShapes pluckedHighBlock
    (by norm_num [pluckedHighBlock]) (by decide) [loudHighBlock, loudHighBlock]
    (by
      intro b hb
      simp only [List.mem_cons, List.mem_singleton, List.not_mem_nil, or_false, or_self] at hb
      subst hb
      exact ⟨by norm_num [loudHighBlock], by decide⟩)
  exact ⟨h.2.1, h.2.2.1, h.2.2.2.2 (List.cons_ne_nil _ _)⟩

/-! ## Applying a level to a sample -/

theorem castInt16_scaled_nonneg (b : Int) (e : ℚ) (hb : 0 ≤ b) (he0 : 0 ≤ e) (he1 : e ≤ 1) :
    0 ≤ castInt16 ((b : ℚ) * e) ∧ castInt16 ((b : ℚ) * e) ≤ b := by
  have hbq : (0 : ℚ) ≤ (b : ℚ) := by exact_mod_cast hb
  have h1 : (0 : ℚ) ≤ (b : ℚ) * e := mul_nonneg hbq he0
  have h2 : (b : ℚ) * e ≤ (b : ℚ) := mul_le_of_le_one_right hbq he1
  have a := castInt16_mono h1
  have c := castInt16_mono h2
  rw [castInt16_intCast] at c
  have z : castInt16 (0 : ℚ) = 0 := by exact_mod_cast castInt16_intCast 0
  rw [z] at a
  exact ⟨a, c⟩

theorem castInt16_scaled_nonpos (b : Int) (e : ℚ) (hb : b ≤ 0) (he0 : 0 ≤ e) (he1 : e ≤ 1) :
    b ≤ castInt16 ((b : ℚ) * e) ∧ castInt16 ((b : ℚ) * e) ≤ 0 := by
  have hbq : (b : ℚ) ≤ 0 := by exact_mod_cast hb
  have h1 : (b : ℚ) * e ≤ 0 := mul_nonpos_of_nonpos_of_nonneg hbq he0
  have h2 : (b : ℚ) ≤ (b : ℚ) * e := by nlinarith
  have a := castInt16_mono h1
  have c := castInt16_mono h2
  rw [castInt16_intCast] at c
  have z : castInt16 (0 : ℚ) = 0 := by exact_mod_cast castInt16_intCast 0
  rw [z] at a
  exact ⟨c, a⟩

/-- C20. Applying the envelope never overflows or amplifies. For every
position `i` of the block, every `int16_t` rendered sample `b` and every
level `e` in `[0, 1]`, the stored value is `v = (int16_t)(b * e)`, the
truncation toward zero of the exact product; `v` lies in
`[-32768, 32767]`, `|v| <= |b|`, `v` is zero or has the sign of `b`; `e = 1`
gives `v = b` and `e = 0` gives `v = 0`. -/
theorem envelope_application_safe (rendered : Nat → Int) (level : ℚ) (i : Nat)
    (hi : i < BLOCK_SIZE) (hb0 : -32768 ≤ rendered i) (hb1 : rendered i ≤ 32767)
    (he0 : 0 ≤ level) (he1 : level ≤ 1) :
    (applyLevel rendered level)[i]? = some (castInt16 ((rendered i : ℚ) * level)) ∧
      -32768 ≤ castInt16 ((rendered i : ℚ) * level) ∧
      castInt16 ((rendered i : ℚ) * level) ≤ 32767 ∧
      |castInt16 ((rendered i : ℚ) * level)| ≤ |rendered i| ∧
      (castInt16 ((rendered i : ℚ) * level) = 0 ∨
        (0 < castInt16 ((rendered i : ℚ) * level) ∧ 0 < rendered i) ∨
        (castInt16 ((rendered i : ℚ) * level) < 0 ∧ rendered i < 0)) ∧
      (level = 1 → castInt16 ((rendered i : ℚ) * level) = rendered i) ∧
      (level = 0 → castInt16 ((rendered i : ℚ) * level) = 0) := by
  have hget : (applyLevel rendered level)[i]? =
      some (castInt16 ((rendered i : ℚ) * level)) := by
    unfold applyLevel
    rw [List.getElem?_map, List.getElem?_range hi]
    rfl
  have hone : level = 1 → castInt16 ((rendered i : ℚ) * level) = rendered i := by
    intro h
    rw [h, mul_one, castInt16_intCast]
  have hzero : level = 0 → castInt16 ((rendered i : ℚ) * level) = 0 := by
    intro h
    rw [h, mul_zero]
    exact_mod_cast castInt16_intCast 0
  rcases le_total 0 (rendered i) with hb | hb
  · obtain ⟨a, c⟩ := castInt16_scaled_nonneg (rendered i) level hb he0 he1
    refine ⟨hget, by omega, by omega, ?_, by omega, hone, hzero⟩
    rw [abs_of_nonneg a, abs_of_nonneg hb]
    exact c
  · obtain ⟨a, c⟩ := castInt16_scaled_nonpos (rendered i) level hb he0 he1
    refine ⟨hget, by omega, by omega, ?_, by omega, hone, hzero⟩
    rw [abs_of_nonpos c, abs_of_nonpos hb]
    omega

/-- Witness of `envelope_application_safe`: sample 10000 at position 0,
level 1/2. -/
theorem envelope_application_safe_witness :
    (applyLevel (fun _ => 10000) (1 / 2))[0]? =
        some (castInt16 (((10000 : Int) : ℚ) * (1 / 2))) ∧
      |castInt16 (((10000 : Int) : ℚ) * (1 / 2))| ≤ |(10000 : Int)| := by
  have h := envelope_application_safe (fun _ => 10000) (1 / 2) 0 (by decide) (by decide)
    (by decide) (by norm_num) (by norm_num)
  exact ⟨h.1, h.2.2.2.1⟩

/-! ## Release in single precision -/

theorem roundF32_nonpos (x : Int) (hx : x ≤ 0) : roundF32 x ≤ 0 := by
  rcases lt_or_eq_of_le hx with h | h
  · unfold roundF32
    simp only
    rw [if_pos h]
    exact neg_nonpos.mpr (Int.natCast_nonneg _)
  · rw [h]
    decide!

theorem roundF32_nonneg (x : Int) (hx : 0 ≤ x) : 0 ≤ roundF32 x := by
  unfold roundF32
  simp only
  rw [if_neg (not_lt.mpr hx)]
  exact Int.natCast_nonneg _

/-- `0.001f` is the `float` nearest to 0.001 and `0.01f` the one nearest to
0.01: each is within half a unit in the last place (`2^-34`, resp. `2^-31`)
of the decimal, and is a fixed point of the rounding. -/
theorem rate_constants_f32 :
    |unitsToRat release_rate_f32 - 1 / 1000| < 1 / 2 ^ 34 ∧
      |unitsToRat attack_rate_f32 - 1 / 100| < 1 / 2 ^ 31 ∧
      roundF32 release_rate_f32 = release_rate_f32 ∧
      roundF32 attack_rate_f32 = attack_rate_f32 ∧
      unitsToRat one_f32 = 1 := by
  refine ⟨?_, ?_, by decide!, by decide!, ?_⟩
  · rw [abs_lt]
    constructor <;> norm_num [unitsToRat, release_rate_f32]
  · rw [abs_lt]
    constructor <;> norm_num [unitsToRat, attack_rate_f32]
  · norm_num [unitsToRat, one_f32]

end Braids

namespace Tides

/-! ## Potentiometer lock handling -/

theorem toUInt16_natCast (n : Nat) (h : n < 65536) : toUInt16 (n : Int) = n := by
  unfold toUInt16
  omega

theorem toUInt16_cast (r : Int) (h0 : 0 ≤ r) (h1 : r < 65536) : (toUInt16 r : Int) = r := by
  unfold toUInt16
  omega

theorem readpotFrom_locked_near (st : PotState) (k : Fin NPOTS) (val : Int)
    (hlock : st.potlock k = true) (hL : st.lastpotvalue k < 65536)
    (hnear : |(st.lastpotvalue k : Int) - val| ≤ MIN_POT_CHANGE) :
    readpotFrom st k val = (st, st.lastpotvalue k) := by
  unfold readpotFrom
  simp only [hlock, if_true, not_lt.mpr hnear, if_false, toUInt16_natCast _ hL]

theorem readpotFrom_locked_far (st : PotState) (k : Fin NPOTS) (val : Int)
    (hlock : st.potlock k = true)
    (hfar : |(st.lastpotvalue k : Int) - val| > MIN_POT_CHANGE) :
    readpotFrom st k val =
      ({ potlock := Function.update st.potlock k false
         lastpotvalue := Function.update st.lastpotvalue k (toUInt16 val)
         potvalue := Function.update st.potvalue k (toUInt16 val) }, toUInt16 val) := by
  unfold readpotFrom
  simp only [hlock, if_true, hfar]

theorem readpotFrom_unlocked_far (st : PotState) (k : Fin NPOTS) (val : Int)
    (hlock : st.potlock k = false)
    (hfar : |(st.lastpotvalue k : Int) - val| > MIN_COUNTS) :
    readpotFrom st k val =
      ({ st with
         lastpotvalue := Function.update st.lastpotvalue k (toUInt16 val)
         potvalue := Function.update st.potvalue k (toUInt16 val) }, toUInt16 val) := by
  unfold readpotFrom
  simp [hlock, hfar]

theorem readpotFrom_unlocked_near (st : PotState) (k : Fin NPOTS) (val : Int)
    (hlock : st.potlock k = false) (hL : st.lastpotvalue k < 65536)
    (hnear : ¬ |(st.lastpotvalue k : Int) - val| > MIN_COUNTS) :
    readpotFrom st k val =
      ({ st with potvalue := Function.update st.potvalue k (st.lastpotvalue k) },
        st.lastpotvalue k) := by
  unfold readpotFrom
  simp [hlock, hnear, toUInt16_natCast _ hL]

theorem readpots_locked_near (st : PotState) (k : Fin NPOTS)
    (hlock : st.potlock k = true) (hL : st.lastpotvalue k < 65536)
    (reads : List (Pin → Nat → Int))
    (hnear : ∀ a ∈ reads,
      |(st.lastpotvalue k : Int) - average a (inputOf k)| ≤ MIN_POT_CHANGE) :
    readpots st k reads = (st, List.replicate reads.length (st.lastpotvalue k)) := by
  induction reads with
  | nil => rfl
  | cons a rest ih =>
    have h1 : readpot st k a = (st, st.lastpotvalue k) :=
      readpotFrom_locked_near st k _ hlock hL (hnear a (List.mem_cons_self _ _))
    have h2 := ih (fun x hx => hnear x (List.mem_cons_of_mem _ hx))
    simp [readpots, h1, h2, List.replicate_succ]

/-- C3. Locked channel. Channel `k` is locked with stable value
`L = lastpotvalue[k]`. For every sequence of calls `readpot(k)` whose
averaged readings all satisfy `|L - r| <= MIN_POT_CHANGE` (20): the globals
are left as they were (so `lastpotvalue[k]`, `potvalue[k]` are unchanged and
the channel is still locked) and every call returns `L`. The next call,
with an averaged reading `r` (a `uint16_t` value) such that
`|L - r| > MIN_POT_CHANGE`, returns `r`, sets
`lastpotvalue[k] = potvalue[k] = r` and clears `potlock[k]`. -/
theorem readpot_locked (st : PotState) (k : Fin NPOTS)
    (hlock : st.potlock k = true) (hL : st.lastpotvalue k < 65536)
    (reads : List (Pin → Nat → Int))
    (hnear : ∀ a ∈ reads,
      |(st.lastpotvalue k : Int) - average a (inputOf k)| ≤ MIN_POT_CHANGE)
    (a : Pin → Nat → Int) (r : Int) (hr : average a (inputOf k) = r)
    (hr0 : 0 ≤ r) (hr1 : r < 65536)
    (hfar : |(st.lastpotvalue k : Int) - r| > MIN_POT_CHANGE) :
    (readpots st k reads).1 = st ∧
      (readpots st k reads).2 = List.replicate reads.length (st.lastpotvalue k) ∧
      ((readpot (readpots st k reads).1 k a).2 : Int) = r ∧
      ((readpot (readpots st k reads).1 k a).1.lastpotvalue k : Int) = r ∧
      ((readpot (readpots st k reads).1 k a).1.potvalue k : Int) = r ∧
      (readpot (readpots st k reads).1 k a).1.potlock k = false := by
  rw [readpots_locked_near st k hlock hL reads hnear]
  have h : readpot st k a = _ := readpotFrom_locked_far st k _ hlock (by rw [hr]; exact hfar)
  rw [hr] at h
  simp only [h, Function.update_same, toUInt16_cast r hr0 hr1, and_self]

theorem average_steadyRead (v : Int) (p : Pin) : average (steadyRead v) p = v := by
  have h : (List.range 16).map (steadyRead v p) = List.replicate 16 v := by
    simp [steadyRead, List.range_succ, List.replicate_succ]
  unfold average POT_AVERAGING
  rw [h, List.sum_replicate]
  have e : (16 • v : Int) = 16 * v := by simp
  rw [e]
  exact Int.mul_tdiv_cancel_left _ (by decide)

/-- Witness of `readpot_locked`: channel 0 locked at 100, two readings
within 20 of it (110 and 95), then the reading 130. -/
theorem readpot_locked_witness :
    (readpots lockedPots 0 [steadyRead 110, steadyRead 95]).1 = lockedPots ∧
      (readpots lockedPots 0 [steadyRead 110, steadyRead 95]).2 =
        List.replicate [steadyRead 110, steadyRead 95].length (lockedPots.lastpotvalue 0) ∧
      ((readpot (readpots lockedPots 0 [steadyRead 110, steadyRead 95]).1 0
        (steadyRead 130)).2 : Int) = 130 ∧
      ((readpot (readpots lockedPots 0 [steadyRead 110, steadyRead 95]).1 0
        (steadyRead 130)).1.lastpotvalue 0 : Int) = 130 ∧
      ((readpot (readpots lockedPots 0 [steadyRead 110, steadyRead 95]).1 0
        (steadyRead 130)).1.potvalue 0 : Int) = 130 ∧
      (readpot (readpots lockedPots 0 [steadyRead 110, steadyRead 95]).1 0
        (steadyRead 130)).1.potlock 0 = false :=
  readpot_locked lockedPots 0 rfl (by decide) [steadyRead 110, steadyRead 95]
    (by
      intro a ha
      simp only [List.mem_cons, List.mem_singleton, List.not_mem_nil, or_false] at ha
      rcases ha with rfl | rfl <;> rw [average_steadyRead] <;> decide)
    (steadyRead 130) 130 (average_steadyRead _ _) (by decide) (by decide) (by decide)

/-- C4. Unlocked channel, and the active threshold. Let `L = lastpotvalue[k]`
be the stable value of channel `k` and `r` the averaged reading (a
`uint16_t` value) of a call `readpot(k)`. If the channel is unlocked: when
`|L - r| > MIN_COUNTS` (12) the call returns `r` and the stable value (and
`potvalue[k]`) becomes `r`; otherwise it returns `L` and the stable value
(and `potvalue[k]`) is `L`; so it returns `r` with stable value `r` exactly
when `|L - r| > 12` (or trivially `r = L`); the channel stays unlocked.
Whatever the lock state, the stable value differs after the call only if
the movement `|L - r|` exceeds the threshold of that state: 20 locked, 12
unlocked. -/
theorem readpot_unlocked (st : PotState) (k : Fin NPOTS) (hL : st.lastpotvalue k < 65536)
    (a : Pin → Nat → Int) (r : Int) (hr : average a (inputOf k) = r)
    (hr0 : 0 ≤ r) (hr1 : r < 65536) :
    (st.potlock k = false →
      (|(st.lastpotvalue k : Int) - r| > MIN_COUNTS →
        ((readpot st k a).2 : Int) = r ∧ ((readpot st k a).1.lastpotvalue k : Int) = r ∧
          ((readpot st k a).1.potvalue k : Int) = r) ∧
      (¬ |(st.lastpotvalue k : Int) - r| > MIN_COUNTS →
        (readpot st k a).2 = st.lastpotvalue k ∧
          (readpot st k a).1.lastpotvalue k = st.lastpotvalue k ∧
          (readpot st k a).1.potvalue k = st.lastpotvalue k) ∧
      ((((readpot st k a).2 : Int) = r ∧ ((readpot st k a).1.lastpotvalue k : Int) = r) ↔
        (|(st.lastpotvalue k : Int) - r| > MIN_COUNTS ∨ r = st.lastpotvalue k)) ∧
      (readpot st k a).1.potlock k = false) ∧
    ((readpot st k a).1.lastpotvalue k ≠ st.lastpotvalue k →
      |(st.lastpotvalue k : Int) - r| >
        (if st.potlock k = true then MIN_POT_CHANGE else MIN_COUNTS)) := by
  have hc := toUInt16_cast r hr0 hr1
  constructor
  · intro hun
    by_cases hfar : |(st.lastpotvalue k : Int) - r| > MIN_COUNTS
    · have h : readpot st k a = _ :=
        readpotFrom_unlocked_far st k _ hun (by rw [hr]; exact hfar)
      rw [hr] at h
      simp only [h, Function.update_same, hc, hfar, hun, and_self, not_true_eq_false,
        true_or, false_imp_iff, true_imp_iff, and_true, iff_self]
    · have h : readpot st k a = _ :=
        readpotFrom_unlocked_near st k _ hun hL (by rw [hr]; exact hfar)
      simp only [h, Function.update_same, hfar, hun, and_self, false_imp_iff, true_imp_iff,
        not_false_eq_true, false_or, true_and, and_true]
      constructor <;> intro h' <;> omega
  · intro hne
    by_cases hlock : st.potlock k = true
    · rw [if_pos hlock]
      by_contra hnear
      apply hne
      have h : readpot st k a = _ :=
        readpotFrom_locked_near st k _ hlock hL (by rw [hr]; exact not_lt.mp hnear)
      rw [h]
    · rw [if_neg hlock]
      have hun : st.potlock k = false := by simpa using hlock
      by_contra hnear
      apply hne
      have h : readpot st k a = _ :=
        readpotFrom_unlocked_near st k _ hun hL (by rw [hr]; exact hnear)
      rw [h]

/-- Witness of `readpot_unlocked`: channel 0 unlocked at 100, reading 113. -/
theorem readpot_unlocked_witness :
    (readpot unlockedPots 0 (steadyRead 113)).2 = 113 ∧
      (readpot unlockedPots 0 (steadyRead 113)).1.lastpotvalue 0 = 113 ∧
      (readpot unlockedPots 0 (steadyRead 113)).1.potlock 0 = false := by
  have h := readpot_unlocked unlockedPots 0 (by decide) (steadyRead 113) 113
    (average_steadyRead _ _) (by decide) (by decide)
  obtain ⟨h1, -, -, h4⟩ := h.1 rfl
  obtain ⟨a1, a2, -⟩ := h1 (by decide)
  exact ⟨by exact_mod_cast a1, by exact_mod_cast a2, h4⟩

/-! ## Gate flags -/

theorem ExtractGateFlags_twice (p : Nat) (g : Bool) :
    ExtractGateFlags (ExtractGateFlags p g) g = if g then GATE_FLAG_HIGH else GATE_FLAG_LOW := by
  unfold ExtractGateFlags
  cases g <;> by_cases h : p &&& GATE_FLAG_HIGH = 0 <;> simp [h] <;> decide

theorem ExtractGateFlags_steady (g : Bool) :
    ExtractGateFlags (if g then GATE_FLAG_HIGH else GATE_FLAG_LOW) g =
      if g then GATE_FLAG_HIGH else GATE_FLAG_LOW := by
  cases g <;> decide

theorem gateFlags_steady (n : Nat) (g : Bool) :
    gateFlags n (if g then GATE_FLAG_HIGH else GATE_FLAG_LOW) g =
      List.replicate n (if g then GATE_FLAG_HIGH else GATE_FLAG_LOW) := by
  induction n with
  | zero => rfl
  | succ k ih =>
    rw [gateFlags]
    simp only [ExtractGateFlags_steady, ih, List.replicate_succ]

theorem gateFlags_block (n : Nat) (p : Nat) (g : Bool) :
    gateFlags (n + 1) p g =
      ExtractGateFlags p g :: List.replicate n (if g then GATE_FLAG_HIGH else GATE_FLAG_LOW) := by
  cases n with
  | zero => rfl
  | succ k =>
    rw [gateFlags, gateFlags]
    simp only [ExtractGateFlags_twice, gateFlags_steady, List.replicate_succ]

theorem ExtractGateFlags_eq (p : Nat) (g : Bool) :
    ExtractGateFlags p g =
      if g = isHigh p then (if g then GATE_FLAG_HIGH else GATE_FLAG_LOW)
      else (if g then GATE_FLAG_RISING ||| GATE_FLAG_HIGH else GATE_FLAG_FALLING) := by
  unfold ExtractGateFlags isHigh
  cases g <;> by_cases h : p &&& GATE_FLAG_HIGH = 0 <;> simp [h]

theorem lastGateFlags_steady (n : Nat) (g : Bool) :
    lastGateFlags n (if g then GATE_FLAG_HIGH else GATE_FLAG_LOW) g =
      if g then GATE_FLAG_HIGH else GATE_FLAG_LOW := by
  induction n with
  | zero => rfl
  | succ k ih => rw [lastGateFlags, ExtractGateFlags_steady, ih]

theorem lastGateFlags_block (n : Nat) (p : Nat) (g : Bool) :
    lastGateFlags (n + 2) p g = if g then GATE_FLAG_HIGH else GATE_FLAG_LOW := by
  rw [lastGateFlags, lastGateFlags, ExtractGateFlags_twice, lastGateFlags_steady]

theorem isEdge_first (g h : Bool) :
    isEdge (if g = h then (if g then GATE_FLAG_HIGH else GATE_FLAG_LOW)
      else (if g then GATE_FLAG_RISING ||| GATE_FLAG_HIGH else GATE_FLAG_FALLING)) = true ↔
      g ≠ h := by
  cases g <;> cases h <;> decide

theorem isEdge_steady (g : Bool) :
    isEdge (if g then GATE_FLAG_HIGH else GATE_FLAG_LOW) = false := by
  cases g <;> decide

/-- C5. Gate-flag expansion of `updateTidesAudio`, with `ExtractGateFlags`
the stmlib primitive. For every carried `previous_gate_flags` value `p` and
every `trigger_in` (block gate `g = trigger_in > 0.5`), the `gate_flags`
array of the call has `BLOCK_SIZE = 16` entries: entry 0 is the edge flag
(`RISING | HIGH` if `g`, `FALLING` if not) when `g` differs from the
is-high bit of `p` and the steady flag otherwise, and entries 1..15 are the
steady flag (`HIGH` if `g`, `LOW` otherwise). Entry 0 is an edge flag
exactly when `g` differs from the is-high bit of `p`, no later entry is an
edge flag, and the carried flag after the call is the steady flag. With
`p = LOW` and the gate high the array is one rising flag followed by 15
`HIGH` flags. -/
theorem gate_flag_expansion (st : State) (c : Controls) (out : Nat → ℚ) :
    gate_flags st c =
        (if decide (c.trigger_in > 1 / 2) = isHigh st.previous_gate_flags then
            (if c.trigger_in > 1 / 2 then GATE_FLAG_HIGH else GATE_FLAG_LOW)
          else
            (if c.trigger_in > 1 / 2 then GATE_FLAG_RISING ||| GATE_FLAG_HIGH
              else GATE_FLAG_FALLING)) ::
          List.replicate 15 (if c.trigger_in > 1 / 2 then GATE_FLAG_HIGH else GATE_FLAG_LOW) ∧
      (gate_flags st c).length = BLOCK_SIZE ∧
      (∀ f, (gate_flags st c)[0]? = some f →
        (isEdge f = true ↔ decide (c.trigger_in > 1 / 2) ≠ isHigh st.previous_gate_flags)) ∧
      (∀ i f, 1 ≤ i → (gate_flags st c)[i]? = some f → isEdge f = false) ∧
      (updateTidesAudio st c out).previous_gate_flags =
        (if c.trigger_in > 1 / 2 then GATE_FLAG_HIGH else GATE_FLAG_LOW) ∧
      (st.previous_gate_flags = GATE_FLAG_LOW → c.trigger_in > 1 / 2 →
        gate_flags st c =
          (GATE_FLAG_RISING ||| GATE_FLAG_HIGH) :: List.replicate 15 GATE_FLAG_HIGH) := by
  have hlist : gate_flags st c =
      ExtractGateFlags st.previous_gate_flags (decide (c.trigger_in > 1 / 2)) ::
        List.replicate 15
          (if decide (c.trigger_in > 1 / 2) = true then GATE_FLAG_HIGH else GATE_FLAG_LOW) :=
    gateFlags_block 15 _ _
  have hlast : (updateTidesAudio st c out).previous_gate_flags =
      (if decide (c.trigger_in > 1 / 2) = true then GATE_FLAG_HIGH else GATE_FLAG_LOW) :=
    lastGateFlags_block 14 _ _
  rw [ExtractGateFlags_eq] at hlist
  simp only [decide_eq_true_eq] at hlist hlast
  refine ⟨hlist, ?_, ?_, ?_, hlast, ?_⟩
  · rw [hlist]
    rfl
  · intro f hf
    rw [hlist] at hf
    simp only [List.getElem?_cons_zero, Option.some.injEq] at hf
    subst hf
    have key := isEdge_first (decide (c.trigger_in > 1 / 2)) (isHigh st.previous_gate_flags)
    simp only [decide_eq_true_eq] at key
    exact key
  · intro i f hi hf
    rw [hlist] at hf
    obtain ⟨j, rfl⟩ : ∃ j, i = j + 1 := ⟨i - 1, by omega⟩
    rw [List.getElem?_cons_succ] at hf
    have hmem : f ∈ List.replicate 15
        (if c.trigger_in > 1 / 2 then GATE_FLAG_HIGH else GATE_FLAG_LOW) :=
      List.getElem?_mem hf
    rw [List.eq_of_mem_replicate hmem]
    split_ifs <;> decide
  · intro hp hg
    rw [hlist]
    have hh : isHigh st.previous_gate_flags = false := by rw [hp]; decide
    have hd : decide (c.trigger_in > 1 / 2) = true := decide_eq_true hg
    rw [hh, hd]
    simp only [if_pos hg]
    rfl

/-! ## Output scaler -/

theorem clampedSample_bounds (s : ℚ) : -32768 ≤ clampedSample s ∧ clampedSample s ≤ 32767 := by
  simp only [clampedSample]
  split_ifs <;> constructor <;> linarith

theorem outputSample_bounds (s : ℚ) : -32768 ≤ outputSample s ∧ outputSample s ≤ 32767 := by
  obtain ⟨h0, h1⟩ := clampedSample_bounds s
  have a := castInt16_mono h0
  have b := castInt16_mono h1
  have e1 : castInt16 (-32768 : ℚ) = -32768 := by exact_mod_cast castInt16_intCast (-32768)
  have e2 : castInt16 (32767 : ℚ) = 32767 := by exact_mod_cast castInt16_intCast 32767
  rw [e1] at a
  rw [e2] at b
  exact ⟨a, b⟩

theorem outputSample_high (s : ℚ) (h : s * output_scale ≥ 32767) : outputSample s = 32767 := by
  have e2 : castInt16 (32767 : ℚ) = 32767 := by exact_mod_cast castInt16_intCast 32767
  have hc : clampedSample s = 32767 := by
    simp only [clampedSample]
    split_ifs <;> linarith
  rw [outputSample, hc, e2]

theorem outputSample_low (s : ℚ) (h : s * output_scale ≤ -32768) : outputSample s = -32768 := by
  have e1 : castInt16 (-32768 : ℚ) = -32768 := by exact_mod_cast castInt16_intCast (-32768)
  have hc : clampedSample s = -32768 := by
    simp only [clampedSample]
    split_ifs <;> linarith
  rw [outputSample, hc, e1]

/-- C9. Output saturation. For every engine sample `S` the `float` handed to
`static_cast<int16_t>` lies in `[-32768, 32767]`, so does the stored value;
the stored value is exactly 32767 whenever `S * (32767/5) >= 32767` and
exactly -32768 whenever `S * (32767/5) <= -32768`. -/
theorem output_saturation (s : ℚ) :
    (-32768 ≤ clampedSample s ∧ clampedSample s ≤ 32767) ∧
      (-32768 ≤ outputSample s ∧ outputSample s ≤ 32767) ∧
      (s * output_scale ≥ 32767 → outputSample s = 32767) ∧
      (s * output_scale ≤ -32768 → outputSample s = -32768) :=
  ⟨clampedSample_bounds s, outputSample_bounds s, outputSample_high s, outputSample_low s⟩

/-! ## Parameter smoother -/

theorem updateTidesAudio_smoothed (st : State) (c : Controls) (out : Nat → ℚ) (p : Param) :
    (updateTidesAudio st c out).smoothed p = smoothStep (st.smoothed p) (c.raw p) := by
  cases p <;> rfl

theorem smoothStep_residual (s t : ℚ) : t - smoothStep s t = 98 / 100 * (t - s) := by
  unfold smoothStep SMOOTH_COEFF
  ring

/-- C10. Parameter smoother. For each of the four smoothed controls
(`freq_smooth`, `shape_smooth`, `slope_smooth`, `smooth_smooth`), with `s`
its value before a call of `updateTidesAudio`, `T` the raw target and `s'`
its value after the call: if `s ≠ T` then `|T - s'| = 0.98 * |T - s|`, which
is strictly less than `|T - s|`, and `s'` lies strictly between `s` and `T`
(no overshoot, and `T` is not reached). -/
theorem smoother_contracts (st : State) (c : Controls) (out : Nat → ℚ) (p : Param)
    (h : st.smoothed p ≠ c.raw p) :
    |c.raw p - (updateTidesAudio st c out).smoothed p| =
        98 / 100 * |c.raw p - st.smoothed p| ∧
      |c.raw p - (updateTidesAudio st c out).smoothed p| < |c.raw p - st.smoothed p| ∧
      (st.smoothed p < c.raw p →
        st.smoothed p < (updateTidesAudio st c out).smoothed p ∧
          (updateTidesAudio st c out).smoothed p < c.raw p) ∧
      (c.raw p < st.smoothed p →
        c.raw p < (updateTidesAudio st c out).smoothed p ∧
          (updateTidesAudio st c out).smoothed p < st.smoothed p) := by
  rw [updateTidesAudio_smoothed]
  have hres := smoothStep_residual (st.smoothed p) (c.raw p)
  have habs : |c.raw p - smoothStep (st.smoothed p) (c.raw p)| =
      98 / 100 * |c.raw p - st.smoothed p| := by
    rw [hres, abs_mul, abs_of_pos (by norm_num : (0 : ℚ) < 98 / 100)]
  have hpos : 0 < |c.raw p - st.smoothed p| :=
    abs_pos.mpr (sub_ne_zero.mpr (Ne.symm h))
  refine ⟨habs, ?_, ?_, ?_⟩
  · rw [habs]
    linarith
  · intro hlt
    constructor <;> linarith
  · intro hlt
    constructor <;> linarith

/-- Witness of `smoother_contracts`: from the initial state
(`freq_smooth = 440`) with `freq_in = 880`. -/
theorem smoother_contracts_witness :
    |(880 : ℚ) - (updateTidesAudio init sampleControls (fun _ => 0)).freq_smooth| =
        98 / 100 * |(880 : ℚ) - 440| ∧
      (440 : ℚ) < (updateTidesAudio init sampleControls (fun _ => 0)).freq_smooth ∧
      (updateTidesAudio init sampleControls (fun _ => 0)).freq_smooth < 880 := by
  have h := smoother_contracts init sampleControls (fun _ => 0) Param.freq
    (by norm_num [State.smoothed, Controls.raw, init, sampleControls])
  obtain ⟨h1, -, h3, -⟩ := h
  have h3' := h3 (by norm_num [State.smoothed, Controls.raw, init, sampleControls])
  exact ⟨h1, h3'⟩

/-! ## Locking all pots -/

theorem lockpots_eq (st : PotState) :
    lockpots st = { st with potlock := fun _ => true } := by
  have hr : List.finRange NPOTS = [0, 1, 2] := by decide
  unfold lockpots
  rw [hr]
  simp only [List.foldl_cons, List.foldl_nil]
  congr 1
  funext i
  have hi : i = 0 ∨ i = 1 ∨ i = 2 := by
    revert i
    decide
  rcases hi with rfl | rfl | rfl <;> simp [Function.update]

/-- C14. `lockpots` locks every channel and changes nothing else: afterwards
`potlock[i]` is set for every `i < NPOTS`, and `potvalue`, `lastpotvalue`
are as before. The next `readpot(k)` returns the previous stable value
`lastpotvalue[k]` when the new averaged reading is within `MIN_POT_CHANGE`
(20) of it, and returns the new reading `r` (a `uint16_t` value) when it
differs by more than 20. -/
theorem lockpots_locks_all (st : PotState) :
    (∀ i : Fin NPOTS, (lockpots st).potlock i = true) ∧
      (lockpots st).potvalue = st.potvalue ∧
      (lockpots st).lastpotvalue = st.lastpotvalue ∧
      (∀ (k : Fin NPOTS) (a : Pin → Nat → Int), st.lastpotvalue k < 65536 →
        |(st.lastpotvalue k : Int) - average a (inputOf k)| ≤ MIN_POT_CHANGE →
        (readpot (lockpots st) k a).2 = st.lastpotvalue k) ∧
      (∀ (k : Fin NPOTS) (a : Pin → Nat → Int),
        0 ≤ average a (inputOf k) → average a (inputOf k) < 65536 →
        |(st.lastpotvalue k : Int) - average a (inputOf k)| > MIN_POT_CHANGE →
        ((readpot (lockpots st) k a).2 : Int) = average a (inputOf k)) := by
  rw [lockpots_eq]
  refine ⟨fun _ => rfl, rfl, rfl, ?_, ?_⟩
  · intro k a hL hnear
    have h : readpot { st with potlock := fun _ => true } k a = _ :=
      readpotFrom_locked_near _ k _ rfl hL hnear
    rw [h]
  · intro k a h0 h1 hfar
    have h : readpot { st with potlock := fun _ => true } k a = _ :=
      readpotFrom_locked_far _ k _ rfl hfar
    rw [h]
    exact toUInt16_cast _ h0 h1

/-! ## Settling of the smoother -/

theorem run_residual (p : Param) (T : ℚ) (blocks : List Block)
    (hT : ∀ b ∈ blocks, b.controls.raw p = T) (st : State) :
    T - (run st blocks).smoothed p = (98 / 100) ^ blocks.length * (T - st.smoothed p) := by
  induction blocks generalizing st with
  | nil => simp [run]
  | cons b rest ih =>
    have hb : b.controls.raw p = T := hT b (List.mem_cons_self _ _)
    have h := ih (fun x hx => hT x (List.mem_cons_of_mem _ hx))
      (updateTidesAudio st b.controls b.out)
    have e : run st (b :: rest) = run (updateTidesAudio st b.controls b.out) rest := rfl
    rw [e, h, updateTidesAudio_smoothed, hb, smoothStep_residual, List.length_cons, pow_succ]
    ring

theorem settle_factor : ((98 : ℚ) / 100) ^ 250 ≤ 1 / 100 := by
  norm_num

/-- C15. Settling time of the smoother. For each of the four smoothed
controls, a constant raw target `T` and any initial smoothed value: after
`n` consecutive calls of `updateTidesAudio` the residual is
`T - s_n = 0.98^n * (T - s_0)`, and after `5 / SMOOTH_COEFF = 250` calls
(or more) `|T - s_n| <= 0.01 * |T - s_0|`: the value is at least 99%
settled. -/
theorem smoother_settles (p : Param) (st : State) (T : ℚ) (blocks : List Block)
    (hT : ∀ b ∈ blocks, b.controls.raw p = T) :
    5 / SMOOTH_COEFF = 250 ∧
      T - (run st blocks).smoothed p = (98 / 100) ^ blocks.length * (T - st.smoothed p) ∧
      (250 ≤ blocks.length →
        |T - (run st blocks).smoothed p| ≤ 1 / 100 * |T - st.smoothed p|) := by
  have hres := run_residual p T blocks hT st
  refine ⟨by norm_num [SMOOTH_COEFF], hres, ?_⟩
  intro hlen
  have hpow : ((98 : ℚ) / 100) ^ blocks.length ≤ 1 / 100 := by
    calc ((98 : ℚ) / 100) ^ blocks.length ≤ ((98 : ℚ) / 100) ^ 250 :=
          pow_le_pow_of_le_one (by norm_num) (by norm_num) hlen
      _ ≤ 1 / 100 := settle_factor
  have hnn : (0 : ℚ) ≤ ((98 : ℚ) / 100) ^ blocks.length := pow_nonneg (by norm_num) _
  rw [hres, abs_mul, abs_of_nonneg hnn]
  exact mul_le_mul_of_nonneg_right hpow (abs_nonneg _)

/-- Witness of `smoother_settles`: 250 blocks with `freq_in = 880` from the
initial `freq_smooth = 440`. -/
theorem smoother_settles_witness :
    |(880 : ℚ) - (run init (List.replicate 250 sampleBlock)).smoothed Param.freq| ≤
      1 / 100 * |(880 : ℚ) - init.smoothed Param.freq| :=
  (smoother_settles Param.freq init 880 (List.replicate 250 sampleBlock)
    (fun b hb => by rw [List.eq_of_mem_replicate hb]; rfl)).2.2
    (by rw [List.length_replicate])

/-! ## Consistency of the pot globals -/

theorem readpotFrom_inv (st : PotState) (k : Fin NPOTS) (val : Int) (hinv : PotInv st)
    (h0 : 0 ≤ val) (h1 : val ≤ 4095) :
    PotInv (readpotFrom st k val).1 ∧
      (readpotFrom st k val).2 = (readpotFrom st k val).1.potvalue k := by
  have hL : st.lastpotvalue k < 65536 := by
    have := (hinv k).2
    omega
  have hv : toUInt16 val ≤ 4095 := by
    unfold toUInt16
    omega
  have hupd : ∀ f g : Fin NPOTS → Nat, (∀ i, f i = g i ∧ g i ≤ 4095) →
      ∀ i, Function.update f k (toUInt16 val) i = Function.update g k (toUInt16 val) i ∧
        Function.update g k (toUInt16 val) i ≤ 4095 := by
    intro f g hfg i
    by_cases hik : i = k
    · subst hik
      rw [Function.update_same, Function.update_same]
      exact ⟨rfl, hv⟩
    · simp only [Function.update_noteq hik]
      exact hfg i
  by_cases hlock : st.potlock k = true
  · by_cases hfar : |(st.lastpotvalue k : Int) - val| > MIN_POT_CHANGE
    · rw [readpotFrom_locked_far st k val hlock hfar]
      refine ⟨hupd _ _ hinv, ?_⟩
      simp only [Function.update_same]
    · rw [readpotFrom_locked_near st k val hlock hL (not_lt.mp hfar)]
      exact ⟨hinv, ((hinv k).1).symm⟩
  · have hun : st.potlock k = false := by simpa using hlock
    by_cases hfar : |(st.lastpotvalue k : Int) - val| > MIN_COUNTS
    · rw [readpotFrom_unlocked_far st k val hun hfar]
      refine ⟨hupd _ _ hinv, ?_⟩
      simp only [Function.update_same]
    · rw [readpotFrom_unlocked_near st k val hun hL hfar]
      refine ⟨?_, ?_⟩
      · intro i
        by_cases hik : i = k
        · subst hik
          show Function.update st.potvalue i (st.lastpotvalue i) i = st.lastpotvalue i ∧
            st.lastpotvalue i ≤ 4095
          rw [Function.update_same]
          exact ⟨rfl, (hinv i).2⟩
        · show Function.update st.potvalue k (st.lastpotvalue k) i = st.lastpotvalue i ∧
            st.lastpotvalue i ≤ 4095
          rw [Function.update_noteq hik]
          exact hinv i
      · show st.lastpotvalue k = Function.update st.potvalue k (st.lastpotvalue k) k
        rw [Function.update_same]

theorem step_inv (st : PotState) (c : PotCall) (hinv : PotInv st) (hc : c.inRange) :
    PotInv (c.step st) := by
  cases c with
  | lock =>
    show PotInv (lockpots st)
    rw [lockpots_eq]
    exact hinv
  | read k a => exact (readpotFrom_inv st k _ hinv hc.1 hc.2).1

theorem potRun_inv (calls : List PotCall) (hc : ∀ c ∈ calls, c.inRange) (st : PotState)
    (hinv : PotInv st) : PotInv (potRun st calls) := by
  induction calls generalizing st with
  | nil => exact hinv
  | cons c rest ih =>
    exact ih (fun x hx => hc x (List.mem_cons_of_mem _ hx)) _
      (step_inv st c hinv (hc c (List.mem_cons_self _ _)))

/-- C19. Consistency of the pot globals. Starting from zero-initialised
`potvalue`, `lastpotvalue` and `potlock`, after every finite sequence of
`lockpots()` and `readpot(k)` calls (`k < NPOTS`, averaged readings in
0..4095), `potvalue[i] = lastpotvalue[i]` for every channel `i`; and a
further `readpot(k)` with such a reading returns the value `potvalue[k]`
has after that call. -/
theorem pot_state_consistency (calls : List PotCall) (hc : ∀ c ∈ calls, c.inRange) :
    (∀ i : Fin NPOTS,
        (potRun PotState.zero calls).potvalue i = (potRun PotState.zero calls).lastpotvalue i) ∧
      (∀ (k : Fin NPOTS) (a : Pin → Nat → Int),
        0 ≤ average a (inputOf k) → average a (inputOf k) ≤ 4095 →
        (readpot (potRun PotState.zero calls) k a).2 =
          (readpot (potRun PotState.zero calls) k a).1.potvalue k) := by
  have hzero : PotInv PotState.zero := fun _ => ⟨rfl, Nat.zero_le _⟩
  have hinv := potRun_inv calls hc PotState.zero hzero
  exact ⟨fun i => (hinv i).1, fun k a h0 h1 => (readpotFrom_inv _ k _ hinv h0 h1).2⟩

/-- Witness of `pot_state_consistency`: read 500 on channel 1, lock all
pots, read 510 on channel 1. -/
theorem pot_state_consistency_witness :
    (potRun PotState.zero [PotCall.read 1 (steadyRead 500), PotCall.lock,
        PotCall.read 1 (steadyRead 510)]).potvalue 1 =
      (potRun PotState.zero [PotCall.read 1 (steadyRead 500), PotCall.lock,
        PotCall.read 1 (steadyRead 510)]).lastpotvalue 1 :=
  (pot_state_consistency [PotCall.read 1 (steadyRead 500), PotCall.lock,
      PotCall.read 1 (steadyRead 510)]
    (by
      intro c hc
      simp only [List.mem_cons, List.mem_singleton, List.not_mem_nil, or_false] at hc
      rcases hc with rfl | rfl | rfl
      · exact ⟨by rw [average_steadyRead]; decide, by rw [average_steadyRead]; decide⟩
      · exact True.intro
      · exact ⟨by rw [average_steadyRead]; decide, by rw [average_steadyRead]; decide⟩)).1 1

end Tides
